import Mathlib

/-!
Verification of the command-policy and path-policy core of the sandbox extension.

The TypeScript sources embedded here are `src/sandbox-ops.ts` (command bypass
policy and process supervision) and `src/file-ops.ts` (filesystem access
policy).  Both lean on two external npm libraries:

* `shell-quote`'s `parse` function is modelled by `shellParse` below, following
  the library's documented Bash-quoting behaviour (single/double quotes,
  backslash escapes, control operators, glob words, comments).  Environment
  variable expansion (`$VAR`) is not modelled: a dollar sign is treated as an
  ordinary character; quotes are assumed balanced.
* `picomatch`'s `isMatch` (default options) is modelled by `picomatchIsMatch`,
  covering the glob features the policy code generates and consumes: literals,
  `*` and `?` (segment-local, with the default rule that a wildcard never
  matches a leading dot of a segment), the globstar segment `**`, one level of
  brace alternation, the `matchBase` option, the rejection of the empty input
  string, and the short-circuit that accepts an input literally equal to the
  glob string.

All string manipulation works over `List Char` so that every definition is
executable and kernel-reducible.
-/

/-! ## Character and string utilities (JavaScript semantics) -/

/-- Whitespace as recognised by JavaScript string trimming and the `\s`
regex class, restricted to the ASCII range (Unicode spaces are not modelled). -/
def wsChar (c : Char) : Bool :=
  c == ' ' || c == '\t' || c == '\n' || c == '\r' || c == Char.ofNat 11 || c == Char.ofNat 12

/-- The single-quote character. -/
def squote : Char := Char.ofNat 39

/-- The double-quote character. -/
def dquote : Char := Char.ofNat 34

/-- The backslash character. -/
def bslash : Char := Char.ofNat 92

/-- JavaScript `String.prototype.trimEnd` on char lists. -/
def jsTrimEndL (l : List Char) : List Char :=
  (l.reverse.dropWhile wsChar).reverse

/-- JavaScript `String.prototype.trim` on char lists. -/
def jsTrimL (l : List Char) : List Char :=
  jsTrimEndL (l.dropWhile wsChar)

/-- JavaScript `String.prototype.trimEnd`. -/
def jsTrimEnd (s : String) : String := ⟨jsTrimEndL s.data⟩

/-- JavaScript `String.prototype.trim`. -/
def jsTrim (s : String) : String := ⟨jsTrimL s.data⟩

/-- JavaScript `s.endsWith(suffix)`. -/
def endsWithS (s sfx : String) : Bool := sfx.data.isSuffixOf s.data

/-- JavaScript `s.startsWith(pre)`. -/
def startsWithS (s pre : String) : Bool := pre.data.isPrefixOf s.data

/-- JavaScript `s.includes(c)` for a single character. -/
def includesC (s : String) (c : Char) : Bool := s.data.contains c

/-- JavaScript `s.slice(0, -n)`: the string without its final `n` characters. -/
def dropEndS (s : String) (n : Nat) : String := ⟨s.data.take (s.data.length - n)⟩

/-- JavaScript `s.slice(1)`: the string without its first character. -/
def dropFirstS (s : String) : String := ⟨s.data.drop 1⟩

/-! ## Model of shell-quote's `parse`

`parse` splits a command line into word tokens (plain strings), glob words
(unquoted words containing `*` or `?`, returned as `{op: "glob", pattern}`
objects), control operators (`{op: "&&"}` and the like) and a trailing
comment object.  The scanner below is a single pass over the characters that
mirrors the library's chunker (words end at unquoted whitespace or control
characters) combined with its per-word Bash-quoting scanner. -/

/-- A token produced by shell-quote's `parse`. -/
inductive ShellToken where
  | str (s : String)
  | glob (pattern : String)
  | op (o : String)
  | comment (text : String)
deriving DecidableEq, Repr

/-- Emit the word accumulated in `out` (if any): a glob token when an unquoted
`*` or `?` was seen, a plain string token otherwise. -/
def emitTok (out : List Char) (started isGlob : Bool) : List ShellToken :=
  if started then
    [if isGlob then ShellToken.glob ⟨out⟩ else ShellToken.str ⟨out⟩]
  else []

/-- Is `c` one of shell-quote's control characters `& ; ( ) | < >`? -/
def controlChar (c : Char) : Bool :=
  c == '&' || c == ';' || c == '(' || c == ')' || c == '|' || c == '<' || c == '>'

/-- The scanner.  State: fuel (structural recursion measure, always at least
the length of the remaining input when called through `shellParse`), remaining
input, accumulated word `out`, whether a word is in progress (`started`),
whether an unquoted `*`/`?` was seen (`isGlob`), the active quote character if
any, and a pending backslash escape (`esc`).  Control operators are recognised
with the library's alternation order (`||`, `&&`, `;;`, `|&`, `<(`, `<<<`,
`>>`, `>&`, `<&`, then single characters).  An unquoted `#` ends parsing with
a comment token holding the rest of the input. -/
def scan : Nat → List Char → List Char → Bool → Bool → Option Char → Bool → List ShellToken
  | 0, _, out, started, isGlob, _quote, _esc => emitTok out started isGlob
  | Nat.succ fuel, input, out, started, isGlob, quote, esc =>
    match input with
    | [] => emitTok out started isGlob
    | c :: rest =>
      let isGlob := isGlob || (quote == none && (c == '*' || c == '?'))
      if esc then
        scan fuel rest (out ++ [c]) true isGlob quote false
      else
        match quote with
        | some q =>
          if c == q then
            scan fuel rest out started isGlob none false
          else if q == squote then
            scan fuel rest (out ++ [c]) started isGlob quote false
          else if c == bslash then
            (match rest with
             | [] => scan fuel [] (out ++ [bslash]) started isGlob quote false
             | c2 :: rest2 =>
               if c2 == dquote || c2 == bslash || c2 == '$' then
                 scan fuel rest2 (out ++ [c2]) started isGlob quote false
               else
                 scan fuel rest2 (out ++ [bslash, c2]) started isGlob quote false)
          else
            scan fuel rest (out ++ [c]) started isGlob quote false
        | none =>
          if c == dquote || c == squote then
            scan fuel rest out true isGlob (some c) false
          else if wsChar c then
            emitTok out started isGlob ++ scan fuel rest [] false false none false
          else if c == '#' then
            (if out == [] then [] else [ShellToken.str ⟨out⟩]) ++ [ShellToken.comment ⟨rest⟩]
          else if c == bslash then
            scan fuel rest out true isGlob none true
          else if c == '|' then
            (match rest with
             | '|' :: r => emitTok out started isGlob ++ [ShellToken.op "||"] ++ scan fuel r [] false false none false
             | '&' :: r => emitTok out started isGlob ++ [ShellToken.op "|&"] ++ scan fuel r [] false false none false
             | _ => emitTok out started isGlob ++ [ShellToken.op "|"] ++ scan fuel rest [] false false none false)
          else if c == '&' then
            (match rest with
             | '&' :: r => emitTok out started isGlob ++ [ShellToken.op "&&"] ++ scan fuel r [] false false none false
             | _ => emitTok out started isGlob ++ [ShellToken.op "&"] ++ scan fuel rest [] false false none false)
          else if c == ';' then
            (match rest with
             | ';' :: r => emitTok out started isGlob ++ [ShellToken.op ";;"] ++ scan fuel r [] false false none false
             | _ => emitTok out started isGlob ++ [ShellToken.op ";"] ++ scan fuel rest [] false false none false)
          else if c == '<' then
            (match rest with
             | '(' :: r => emitTok out started isGlob ++ [ShellToken.op "<("] ++ scan fuel r [] false false none false
             | '<' :: '<' :: r => emitTok out started isGlob ++ [ShellToken.op "<<<"] ++ scan fuel r [] false false none false
             | '&' :: r => emitTok out started isGlob ++ [ShellToken.op "<&"] ++ scan fuel r [] false false none false
             | _ => emitTok out started isGlob ++ [ShellToken.op "<"] ++ scan fuel rest [] false false none false)
          else if c == '>' then
            (match rest with
             | '>' :: r => emitTok out started isGlob ++ [ShellToken.op ">>"] ++ scan fuel r [] false false none false
             | '&' :: r => emitTok out started isGlob ++ [ShellToken.op ">&"] ++ scan fuel r [] false false none false
             | _ => emitTok out started isGlob ++ [ShellToken.op ">"] ++ scan fuel rest [] false false none false)
          else if c == '(' then
            emitTok out started isGlob ++ [ShellToken.op "("] ++ scan fuel rest [] false false none false
          else if c == ')' then
            emitTok out started isGlob ++ [ShellToken.op ")"] ++ scan fuel rest [] false false none false
          else
            scan fuel rest (out ++ [c]) true isGlob none false

/-- Model of shell-quote's `parse` (with an empty environment; `$` is treated
as an ordinary character).  The fuel equals the input length, so the scanner
always reaches the end of the input before running out. -/
def shellParse (s : String) : List ShellToken :=
  scan s.data.length s.data [] false false none false

/-! ## sandbox-ops.ts: command bypass policy -/

/-- Safe trailing redirects that are allowed at the end of commands
(`SAFE_TRAILING_REDIRECTS` in sandbox-ops.ts).  Order matters: more specific
patterns come first. -/
def SAFE_TRAILING_REDIRECTS : List String :=
  [">/dev/null 2>&1", "&>/dev/null", "2>/dev/null", "2>&1"]

/-- Function `stripSafeTrailingRedirects` from sandbox-ops.ts: trim trailing
whitespace, then remove the first matching safe redirect suffix (at most one)
and trim again. -/
def stripSafeTrailingRedirects (command : String) : String :=
  let stripped := jsTrimEnd command
  match SAFE_TRAILING_REDIRECTS.find? (fun r => endsWithS stripped r) with
  | some r => jsTrimEnd (dropEndS stripped r.data.length)
  | none => stripped

/-- Token walk of `parseCommand` in sandbox-ops.ts: strings and glob patterns
become tokens; any other parsed object (operator or comment) makes the whole
command compound, represented here by `none`. -/
def parseCommandGo : List ShellToken → Option (List String)
  | [] => some []
  | ShellToken.str s :: rest => (parseCommandGo rest).map (s :: ·)
  | ShellToken.glob p :: rest => (parseCommandGo rest).map (p :: ·)
  | ShellToken.op _ :: _ => none
  | ShellToken.comment _ :: _ => none

/-- Function `parseCommand` from sandbox-ops.ts.  `none` plays the role of the
`isCompound` sentinel; `some toks` is the flat token list. -/
def parseCommand (command : String) : Option (List String) :=
  parseCommandGo (shellParse (jsTrim (stripSafeTrailingRedirects command)))

/-- The string payload of a plain string token. -/
def strTokOf : ShellToken → Option String
  | ShellToken.str s => some s
  | _ => none

/-- Result of `parsePattern` in sandbox-ops.ts. -/
structure PatternParse where
  tokens : List String
  isPrefixMatch : Bool
deriving DecidableEq, Repr

/-- Function `parsePattern` from sandbox-ops.ts: keep only the plain string tokens and
record whether the final parsed token is the bare glob `*`. -/
def parsePattern (pattern : String) : PatternParse :=
  let parsed := shellParse (jsTrim pattern)
  { tokens := parsed.filterMap strTokOf,
    isPrefixMatch :=
      match parsed.getLast? with
      | some (ShellToken.glob p) => p == "*"
      | _ => false }

/-- JavaScript `patternTokens.every((token, i) => token === commandTokens[i])`:
each pattern token must equal the command token at the same index (an
out-of-range index yields `undefined` and the comparison fails). -/
def everyTokenEq : List String → List String → Bool
  | [], _ => true
  | _ :: _, [] => false
  | p :: ps, c :: cs => p == c && everyTokenEq ps cs

/-- Function `isUnsandboxedCommand` from sandbox-ops.ts. -/
def isUnsandboxedCommand (command : String) (unsandboxedCommands : List String) : Bool :=
  match parseCommand command with
  | none => false
  | some cmdToks =>
    unsandboxedCommands.any fun pattern =>
      let p := parsePattern pattern
      if p.isPrefixMatch then
        if cmdToks.length < p.tokens.length then false
        else everyTokenEq p.tokens cmdToks
      else
        if p.tokens.length == cmdToks.length then everyTokenEq p.tokens cmdToks
        else false

/-! ## sandbox-ops.ts: the close handler of `createSandboxedBashOps.exec`

The `close` listener (sandbox-ops.ts lines 59 to 77) runs when the supervised
child process closes.  It reads two booleans — whether the abort signal has
fired (`signal?.aborted`) and whether the timeout timer has fired (`timedOut`)
— plus the exit code (`null` when the process was killed by a signal,
modelled as `none`).  It then either rejects with the abort error, rejects
with the timeout error, or emits the annotation chunk (for a nonzero or null
exit code) and resolves.  The external
`SandboxManager.annotateStderrWithSandboxFailures` collaborator is passed in
as the function argument `annotate`. -/

/-- Terminal outcome of one `exec` invocation as decided by the close
handler. -/
inductive ExecOutcome where
  | rejectedAborted
  | rejectedTimeout (timeoutSeconds : Nat)
  | resolved (exitCode : Option Int)
deriving DecidableEq, Repr

/-- The branch taken by the close handler: abort beats timeout beats normal
resolution. -/
def closeOutcome (signalAborted timedOut : Bool) (timeoutSeconds : Nat)
    (exitCode : Option Int) : ExecOutcome :=
  if signalAborted then ExecOutcome.rejectedAborted
  else if timedOut then ExecOutcome.rejectedTimeout timeoutSeconds
  else ExecOutcome.resolved exitCode

/-- The extra output chunks the close handler pushes through `onData` before
resolving.  The code annotates the local constant `stderrOutput = ""` — not
the stderr streamed during the run — and emits the result unconditionally
whenever the exit code differs from 0. -/
def closeEmittedChunks (annotate : String → String → String) (command : String)
    (signalAborted timedOut : Bool) (exitCode : Option Int) : List String :=
  if signalAborted then []
  else if timedOut then []
  else
    match exitCode with
    | some 0 => []
    | _ => [annotate command ""]

/-- Modelled from the spec: the specified emission behaviour of step 6 of the
supervisor ("On normal process exit with nonzero status ... query the
external mechanism to annotate accumulated stderr ...; if that annotation
adds information beyond the raw stderr already delivered, emit the extra
diagnostic text as an additional output chunk").  This definition follows the
spec's words, for comparison with `closeEmittedChunks`, which embeds the
code. -/
def annotateEmissionStated (annotate : String → String → String)
    (command accumulatedStderr : String) (exitCode : Option Int) : List String :=
  match exitCode with
  | some 0 => []
  | _ =>
    let annotated := annotate command accumulatedStderr
    if annotated == accumulatedStderr then [] else [annotated]

/-! ## Model of picomatch's `isMatch` (default options) -/

/-- Split a character list at every occurrence of `sep` (the result always has
one more entry than the number of separators, like JavaScript `split`). -/
def splitOnChar (sep : Char) : List Char → List (List Char)
  | [] => [[]]
  | c :: cs =>
    if c == sep then [] :: splitOnChar sep cs
    else
      match splitOnChar sep cs with
      | s :: rest => (c :: s) :: rest
      | [] => [[c]]

/-- Glob matching of a single path segment, without the leading-dot rule:
`*` matches any run of characters, `?` exactly one, anything else itself. -/
def globChars : List Char → List Char → Bool
  | [], t => t.isEmpty
  | p :: ps, t =>
    if p == '*' then t.tails.any fun t2 => globChars ps t2
    else if p == '?' then
      match t with
      | [] => false
      | _ :: ts => globChars ps ts
    else
      match t with
      | [] => false
      | c :: ts => p == c && globChars ps ts

/-- Glob matching of one segment with picomatch's default dotfile rule: a
wildcard at the start of the segment pattern never matches a leading dot. -/
def globSegMatch (p t : List Char) : Bool :=
  if (p.head? == some '*' || p.head? == some '?') && t.head? == some '.' then false
  else globChars p t

/-- Does this segment begin with a character other than a dot (or is empty)?
Picomatch's default globstar refuses to cross dot-initial segments. -/
def noDotHead (seg : List Char) : Bool := seg.head? != some '.'

/-- The globstar step: consume zero or more leading segments, none of which
may start with a dot, then hand over to the continuation. -/
def star2Consume (next : List (List Char) → Bool) : List (List Char) → Bool
  | [] => next []
  | t :: ts => next (t :: ts) || (noDotHead t && star2Consume next ts)

/-- Match a list of pattern segments against a list of path segments.  A
pattern segment `**` matches any number of non-dot-initial segments; every
other segment is matched by `globSegMatch`. -/
def segsMatch : List (List Char) → List (List Char) → Bool
  | [], ts => ts.isEmpty
  | p :: ps, ts =>
    if p == ['*', '*'] then star2Consume (fun ts2 => segsMatch ps ts2) ts
    else
      match ts with
      | [] => false
      | t :: ts2 => globSegMatch p t && segsMatch ps ts2

/-- Expand one (non-nested) brace alternation `pre{a,b,...}post` into the list
of its alternatives; a pattern without braces stands for itself.  This covers
the `\x7b,/**\x7d` suffix the policy code appends; nested or multiple brace
groups are outside the modelled fragment. -/
def braceExpand (pattern : String) : List String :=
  let l := pattern.data
  let pre := l.takeWhile fun c => c != '{'
  match l.dropWhile fun c => c != '{' with
  | '{' :: rest =>
    let mid := rest.takeWhile fun c => c != '}'
    (match rest.dropWhile fun c => c != '}' with
     | '}' :: post => (splitOnChar ',' mid).map fun alt => (⟨pre ++ alt ++ post⟩ : String)
     | _ => [pattern])
  | _ => [pattern]

/-- Node's `path.basename`: the last nonempty slash-separated segment (the
root-only edge cases are not needed by the policy code). -/
def basenameStr (p : String) : String :=
  ⟨((splitOnChar '/' p.data).filter fun seg => seg != []).getLastD []⟩

/-- Model of `picomatch.isMatch(path, pattern, opts)` with default options
apart from `matchBase`.  Mirrors `picomatch.test`: the empty input never
matches; an input literally equal to the glob string matches immediately;
with `matchBase` the compiled pattern is applied to the basename of the
input. -/
def picomatchIsMatch (path pattern : String) (matchBase : Bool) : Bool :=
  if path == "" then false
  else if path == pattern then true
  else
    let input := if matchBase then basenameStr path else path
    (braceExpand pattern).any fun alt =>
      segsMatch (splitOnChar '/' alt.data) (splitOnChar '/' input.data)

/-! ## file-ops.ts: filesystem access policy

`homedir()` is an ambient value in the TypeScript code; here it is the
explicit first argument `home` of each function. -/

/-- The literal suffix appended to wildcard-free patterns (written with
escaped braces). -/
def braceSuffix : String := "\x7b,/**\x7d"

/-- The `filesystem` section of the sandbox configuration (all fields
optional, as in the TypeScript `SandboxRuntimeConfig`). -/
structure FilesystemConfig where
  denyRead : Option (List String) := none
  allowWrite : Option (List String) := none
  denyWrite : Option (List String) := none

/-- The sandbox configuration: only the `filesystem` section is consumed by
file-ops.ts. -/
structure SandboxConfig where
  filesystem : Option FilesystemConfig := none

/-- JavaScript `config.filesystem?.denyRead`. -/
def cfgDenyRead (config : SandboxConfig) : Option (List String) :=
  match config.filesystem with
  | some fs => fs.denyRead
  | none => none

/-- JavaScript `config.filesystem?.allowWrite`. -/
def cfgAllowWrite (config : SandboxConfig) : Option (List String) :=
  match config.filesystem with
  | some fs => fs.allowWrite
  | none => none

/-- JavaScript `config.filesystem?.denyWrite`. -/
def cfgDenyWrite (config : SandboxConfig) : Option (List String) :=
  match config.filesystem with
  | some fs => fs.denyWrite
  | none => none

/-- Function `pathMatchesPattern` from file-ops.ts: expand `~`, resolve relative
patterns against `cwd`, decide basename mode, broaden wildcard-free patterns
with the brace suffix, then call picomatch. -/
def pathMatchesPattern (home : String) (path pattern cwd : String) : Bool :=
  let pattern :=
    if startsWithS pattern "~/" then home ++ dropFirstS pattern
    else if pattern == "~" then home
    else pattern
  let pattern :=
    if pattern == "." then cwd
    else if startsWithS pattern "./" then cwd ++ dropFirstS pattern
    else if !startsWithS pattern "/" && includesC pattern '/' then cwd ++ "/" ++ pattern
    else pattern
  let useMatchBase := !includesC pattern '/'
  let pattern :=
    if !includesC pattern '*' && !includesC pattern '?' then pattern ++ braceSuffix
    else pattern
  picomatchIsMatch path pattern useMatchBase

/-- One step of node's posix path normalisation: empty and `.` segments
disappear, `..` pops the previous kept segment (and is dropped at the root),
anything else is kept. -/
def normStep (acc : List (List Char)) (seg : List Char) : List (List Char) :=
  if seg == [] || seg == ['.'] then acc
  else if seg == ['.', '.'] then acc.dropLast
  else acc ++ [seg]

/-- Fold of node's posix path normalisation over the segments of an absolute
path. -/
def normalizeAbs (segs : List (List Char)) : List (List Char) :=
  segs.foldl normStep []

/-- Interleave the kept segments with separators. -/
def joinSegs : List (List Char) → List Char
  | [] => []
  | [seg] => seg
  | seg :: rest => seg ++ '/' :: joinSegs rest

/-- Reassemble normalised segments into an absolute path string. -/
def joinAbs (kept : List (List Char)) : String :=
  ⟨'/' :: joinSegs kept⟩

/-- Node's `resolve(cwd, p)` for an absolute `cwd` (a relative `cwd` would
fall back to the process working directory, which is outside the model). -/
def resolveJoin (cwd p : String) : String :=
  let full := if startsWithS p "/" then p else cwd ++ "/" ++ p
  joinAbs (normalizeAbs (splitOnChar '/' full.data))

/-- Function `resolvePath` from file-ops.ts: expand `~` in the candidate path and
resolve it against `cwd` when it is not absolute (an already-absolute path is
kept verbatim, without normalisation). -/
def resolvePath (home : String) (path cwd : String) : String :=
  let path :=
    if startsWithS path "~/" then home ++ dropFirstS path
    else if path == "~" then home
    else path
  if startsWithS path "/" then path else resolveJoin cwd path

/-- Function `isReadAllowed` from file-ops.ts. -/
def isReadAllowed (home : String) (path cwd : String) (config : SandboxConfig) : Bool :=
  let absolutePath := resolvePath home path cwd
  match cfgDenyRead config with
  | none => true
  | some denyRead =>
    if denyRead.isEmpty then true
    else !(denyRead.any fun pattern => pathMatchesPattern home absolutePath pattern cwd)

/-- Function `isWriteAllowed` from file-ops.ts: a denyWrite hit rejects outright;
otherwise a present nonempty allowWrite list must contain a matching
pattern; otherwise writes are allowed. -/
def isWriteAllowed (home : String) (path cwd : String) (config : SandboxConfig) : Bool :=
  let absolutePath := resolvePath home path cwd
  let denyHit :=
    match cfgDenyWrite config with
    | some l => !l.isEmpty && l.any fun pattern => pathMatchesPattern home absolutePath pattern cwd
    | none => false
  if denyHit then false
  else
    match cfgAllowWrite config with
    | some l =>
      if !l.isEmpty then l.any fun pattern => pathMatchesPattern home absolutePath pattern cwd
      else true
    | none => true

/-- Is this parsed token a control operator (and not a glob)? -/
def isOpTok : ShellToken → Bool
  | ShellToken.op _ => true
  | _ => false

/-! Sanity checks against the behaviours exercised by sandbox-ops.test.ts. -/

example : isUnsandboxedCommand "npm test" ["npm test"] = true := by decide
example : isUnsandboxedCommand "npm build" ["npm test"] = false := by decide
example : isUnsandboxedCommand "npm test --coverage" ["npm test"] = false := by decide
example : isUnsandboxedCommand "  npm test  " ["  npm test  "] = true := by decide
example : isUnsandboxedCommand "npm run build" ["npm run *"] = true := by decide
example : isUnsandboxedCommand "npm run" ["npm run *"] = true := by decide
example : isUnsandboxedCommand "git" ["git *"] = true := by decide
example : isUnsandboxedCommand "npm" ["npm run *"] = false := by decide
example : isUnsandboxedCommand "npm-run build" ["npm *"] = false := by decide
example : isUnsandboxedCommand "npm test && npm build" ["npm test"] = false := by decide
example : isUnsandboxedCommand "npm test && npm build" ["*"] = false := by decide
example : isUnsandboxedCommand "cat file.txt | grep pattern" ["cat *"] = false := by decide
example : isUnsandboxedCommand "npm test; npm build" ["npm *"] = false := by decide
example : isUnsandboxedCommand "echo hello > file.txt" ["echo hello"] = false := by decide
example : isUnsandboxedCommand "cat < input.txt" ["cat"] = false := by decide
example : isUnsandboxedCommand "npm test" [] = false := by decide
example : isUnsandboxedCommand "npm test" ["", "npm test"] = true := by decide
example : isUnsandboxedCommand "npm test" ["", "   "] = false := by decide
example : isUnsandboxedCommand "npm test" ["*"] = true := by decide
example : isUnsandboxedCommand "cmd 2>/dev/null" ["cmd"] = true := by decide
example : isUnsandboxedCommand "cmd > out.txt" ["cmd"] = false := by decide

/-! Sanity checks against the behaviours exercised by file-ops.test.ts
(`home` instantiated as "/home/u", `cwd` as "/projects/myapp"). -/

example : pathMatchesPattern "/home/u" "/home/u/.ssh" "~/.ssh" "/projects/myapp" = true := by decide
example : pathMatchesPattern "/home/u" "/home/u/.ssh/id_rsa" "~/.ssh" "/projects/myapp" = true := by decide
example : pathMatchesPattern "/home/u" "/home/u/.ssh/keys/work/id_rsa" "~/.ssh" "/projects/myapp" = true := by decide
example : pathMatchesPattern "/home/u" "/home/u/Documents" "~" "/projects/myapp" = true := by decide
example : pathMatchesPattern "/home/u" "/etc/hosts" "~/.ssh" "/projects/myapp" = false := by decide
example : pathMatchesPattern "/home/u" "/home/u/.bashrc" "~/.ssh" "/projects/myapp" = false := by decide
example : pathMatchesPattern "/home/u" "/home/u/.ssh-backup" "~/.ssh" "/projects/myapp" = false := by decide
example : pathMatchesPattern "/home/u" "/projects/myapp/secrets/api.key" "/projects/myapp/secrets" "/projects/myapp" = true := by decide
example : pathMatchesPattern "/home/u" "/projects/myapp/secrets" "/projects/myapp/secrets" "/projects/myapp" = true := by decide
example : pathMatchesPattern "/home/u" "/projects/myapp/src/index.ts" "/projects/myapp/secrets" "/projects/myapp" = false := by decide
example : pathMatchesPattern "/home/u" "/projects/server.pem" "*.pem" "/projects/myapp" = true := by decide
example : pathMatchesPattern "/home/u" "/projects/.env.local" ".env.*" "/projects/myapp" = true := by decide
example : pathMatchesPattern "/home/u" "/projects/.env" ".env" "/projects/myapp" = true := by decide
example : pathMatchesPattern "/home/u" "/projects/certs/server.pem" "*.pem" "/projects/myapp" = true := by decide
example : pathMatchesPattern "/home/u" "/projects/config/.env" ".env" "/projects/myapp" = true := by decide
example : pathMatchesPattern "/home/u" "/projects/server.cert" "*.pem" "/projects/myapp" = false := by decide
example : pathMatchesPattern "/home/u" "/projects/.envrc" ".env" "/projects/myapp" = false := by decide
example : pathMatchesPattern "/home/u" "/projects/.envrc" ".env.*" "/projects/myapp" = false := by decide
example : pathMatchesPattern "/home/u" "/projects/myapp" "." "/projects/myapp" = true := by decide
example : pathMatchesPattern "/home/u" "/projects/myapp/src/index.ts" "." "/projects/myapp" = true := by decide
example : pathMatchesPattern "/home/u" "/other/path" "." "/projects/myapp" = false := by decide
example : pathMatchesPattern "/home/u" "/projects/myapp/src/index.ts" "./src" "/projects/myapp" = true := by decide
example : pathMatchesPattern "/home/u" "/projects/myapp/src" "./src" "/projects/myapp" = true := by decide
example : pathMatchesPattern "/home/u" "/projects/myapp/other/file.ts" "./src" "/projects/myapp" = false := by decide
example : pathMatchesPattern "/home/u" "/projects/myapp/foo/test.bar" "foo/*.bar" "/projects/myapp" = true := by decide
example : pathMatchesPattern "/home/u" "/projects/myapp/foo/test.baz" "foo/*.bar" "/projects/myapp" = false := by decide
example : pathMatchesPattern "/home/u" "/other/foo/test.bar" "foo/*.bar" "/projects/myapp" = false := by decide

example :
    isReadAllowed "/home/u" "secrets/api.key" "/projects/myapp"
      ⟨some ⟨some ["/projects/myapp/secrets", "~/.ssh"], none, none⟩⟩ = false := by decide
example :
    isReadAllowed "/home/u" "./secrets/api.key" "/projects/myapp"
      ⟨some ⟨some ["/projects/myapp/secrets", "~/.ssh"], none, none⟩⟩ = false := by decide
example :
    isReadAllowed "/home/u" "src/index.ts" "/projects/myapp"
      ⟨some ⟨some ["/projects/myapp/secrets", "~/.ssh"], none, none⟩⟩ = true := by decide
example :
    isReadAllowed "/home/u" "~/.ssh/id_rsa" "/projects/myapp"
      ⟨some ⟨some ["/projects/myapp/secrets", "~/.ssh"], none, none⟩⟩ = false := by decide
example :
    isReadAllowed "/home/u" "~/.bashrc" "/projects/myapp"
      ⟨some ⟨some ["/projects/myapp/secrets", "~/.ssh"], none, none⟩⟩ = true := by decide
example :
    isReadAllowed "/home/u" "/any/path" "/projects/myapp" ⟨some ⟨some [], none, none⟩⟩ = true := by decide

example :
    isWriteAllowed "/home/u" "src/index.ts" "/projects/myapp"
      ⟨some ⟨none, some [".", "/tmp"], some []⟩⟩ = true := by decide
example :
    isWriteAllowed "/home/u" "/tmp/subdir/file.txt" "/projects/myapp"
      ⟨some ⟨none, some [".", "/tmp"], some []⟩⟩ = true := by decide
example :
    isWriteAllowed "/home/u" "/etc/hosts" "/projects/myapp"
      ⟨some ⟨none, some [".", "/tmp"], some []⟩⟩ = false := by decide
example :
    isWriteAllowed "/home/u" ".env" "/projects/myapp"
      ⟨some ⟨none, some [], some [".env", ".env.*", "*.pem", "*.key"]⟩⟩ = false := by decide
example :
    isWriteAllowed "/home/u" "/projects/myapp/.env" "/projects/myapp"
      ⟨some ⟨none, some [], some [".env", ".env.*", "*.pem", "*.key"]⟩⟩ = false := by decide
example :
    isWriteAllowed "/home/u" ".env.local" "/projects/myapp"
      ⟨some ⟨none, some [], some [".env", ".env.*", "*.pem", "*.key"]⟩⟩ = false := by decide
example :
    isWriteAllowed "/home/u" "server.pem" "/projects/myapp"
      ⟨some ⟨none, some [], some [".env", ".env.*", "*.pem", "*.key"]⟩⟩ = false := by decide
example :
    isWriteAllowed "/home/u" "src/index.ts" "/projects/myapp"
      ⟨some ⟨none, some [], some [".env", ".env.*", "*.pem", "*.key"]⟩⟩ = true := by decide
example :
    isWriteAllowed "/home/u" "config.json" "/projects/myapp"
      ⟨some ⟨none, some [], some [".env", ".env.*", "*.pem", "*.key"]⟩⟩ = true := by decide
example :
    isWriteAllowed "/home/u" "certs/server.pem" "/projects/myapp"
      ⟨some ⟨none, some [".", "/tmp"], some [".env", ".env.*", "*.pem"]⟩⟩ = false := by decide
example :
    isWriteAllowed "/home/u" "/any/path" "/projects/myapp" ⟨none⟩ = true := by decide

/-! ## Helper lemmas about the command policy -/

/-- A token stream containing an operator makes `parseCommandGo` report a
compound command. -/
theorem parseCommandGo_eq_none_of_op (toks : List ShellToken)
    (h : toks.any isOpTok = true) : parseCommandGo toks = none := by
  induction toks with
  | nil => simp at h
  | cons t rest ih =>
    cases t with
    | str s =>
      rw [List.any_cons, show isOpTok (ShellToken.str s) = false from rfl, Bool.false_or] at h
      simp [parseCommandGo, ih h]
    | glob p =>
      rw [List.any_cons, show isOpTok (ShellToken.glob p) = false from rfl, Bool.false_or] at h
      simp [parseCommandGo, ih h]
    | op o => rfl
    | comment s => rfl

/-- Predicate `everyTokenEq` holds exactly when the pattern tokens are an initial run of
the command tokens. -/
theorem everyTokenEq_eq_true_iff (ps cs : List String) :
    everyTokenEq ps cs = true ↔ ps.length ≤ cs.length ∧ ps = cs.take ps.length := by
  induction ps generalizing cs with
  | nil => simp [everyTokenEq]
  | cons p ps ih =>
    cases cs with
    | nil => simp [everyTokenEq]
    | cons c cs =>
      simp only [everyTokenEq, Bool.and_eq_true, beq_iff_eq, ih, List.length_cons,
        List.take_succ_cons, Nat.add_le_add_iff_right, List.cons.injEq]
      constructor
      · rintro ⟨rfl, hle, hp⟩
        exact ⟨hle, rfl, hp⟩
      · rintro ⟨hle, rfl, hp⟩
        exact ⟨rfl, hle, hp⟩

/-- How one pattern fares against the token list of a non-compound command:
the boolean computed inside the `isUnsandboxedCommand` loop. -/
theorem isUnsandboxedCommand_singleton (cmd pat : String) (cmdToks : List String)
    (h : parseCommand cmd = some cmdToks) :
    isUnsandboxedCommand cmd [pat] =
      (if (parsePattern pat).isPrefixMatch then
        if cmdToks.length < (parsePattern pat).tokens.length then false
        else everyTokenEq (parsePattern pat).tokens cmdToks
      else
        if (parsePattern pat).tokens.length == cmdToks.length then
          everyTokenEq (parsePattern pat).tokens cmdToks
        else false) := by
  simp only [isUnsandboxedCommand, h, List.any_cons, List.any_nil, Bool.or_false]

/-- An empty pattern string parses to no tokens and no prefix flag. -/
theorem parsePattern_empty : parsePattern "" = ⟨[], false⟩ := by decide

/-- The `isUnsandboxedCommand` loop result is unchanged by removing list
entries on which the per-pattern test is `false`. -/
theorem any_eq_any_filter (l : List String) (f : String → Bool) (hf : f "" = false) :
    l.any f = (l.filter fun p => p != "").any f := by
  induction l with
  | nil => rfl
  | cons p ps ih =>
    by_cases hp : p = ""
    · subst hp
      simp [hf, ih]
    · have : (p != "") = true := by simpa using hp
      simp [List.filter_cons, this, ih]

/-! ## Claim C1 -/

/-- C1: for every command string whose tokenization (after stripping at most
one recognized safe trailing redirect) contains a shell control, pipe,
sequencing, or redirection operator, and for every list of bypass patterns,
`isUnsandboxedCommand` returns false. -/
theorem compound_command_never_bypassed (command : String) (patterns : List String)
    (h : (shellParse (jsTrim (stripSafeTrailingRedirects command))).any isOpTok = true) :
    isUnsandboxedCommand command patterns = false := by
  unfold isUnsandboxedCommand parseCommand
  rw [parseCommandGo_eq_none_of_op _ h]

/-- Witness for C1 at the compound command "npm test && rm -rf /" with the
degenerate pattern list containing the single-token pattern. -/
theorem compound_command_never_bypassed_witness :
    isUnsandboxedCommand "npm test && rm -rf /" ["npm test", "*"] = false :=
  compound_command_never_bypassed "npm test && rm -rf /" ["npm test", "*"] (by decide)

/-! ## Claim C5 -/

/-- C5: against a non-compound command, a prefix pattern (final parsed token a
bare `*`) matches exactly when the command has at least as many tokens as the
pattern's kept tokens and each corresponding token is equal in order, trailing
command tokens unconstrained (so "npm" does not match "npm run *"); a
non-prefix pattern matches exactly when the token sequences are identical. -/
theorem bypass_matching_semantics (cmd pat : String) (cmdToks : List String)
    (h : parseCommand cmd = some cmdToks) :
    isUnsandboxedCommand "npm" ["npm run *"] = false ∧
    ((parsePattern pat).isPrefixMatch = true →
      (isUnsandboxedCommand cmd [pat] = true ↔
        (parsePattern pat).tokens.length ≤ cmdToks.length ∧
          (parsePattern pat).tokens = cmdToks.take (parsePattern pat).tokens.length)) ∧
    ((parsePattern pat).isPrefixMatch = false →
      (isUnsandboxedCommand cmd [pat] = true ↔ (parsePattern pat).tokens = cmdToks)) := by
  refine ⟨by decide, ?_, ?_⟩
  · intro hpre
    rw [isUnsandboxedCommand_singleton cmd pat cmdToks h, hpre]
    simp only [if_true]
    by_cases hlt : cmdToks.length < (parsePattern pat).tokens.length
    · simp only [hlt, if_true]
      constructor
      · intro hfalse
        exact absurd hfalse (by simp)
      · rintro ⟨hle, -⟩
        omega
    · simp only [hlt, if_false]
      rw [everyTokenEq_eq_true_iff]
  · intro hpre
    rw [isUnsandboxedCommand_singleton cmd pat cmdToks h, hpre]
    simp only [Bool.false_eq_true, if_false]
    by_cases heq : (parsePattern pat).tokens.length = cmdToks.length
    · have : ((parsePattern pat).tokens.length == cmdToks.length) = true := by
        simpa using heq
      rw [this]
      simp only [if_true]
      rw [everyTokenEq_eq_true_iff]
      constructor
      · rintro ⟨-, hp⟩
        rw [hp, heq, List.take_length]
      · rintro rfl
        exact ⟨Nat.le_refl _, (List.take_length _).symm⟩
    · have : ((parsePattern pat).tokens.length == cmdToks.length) = false := by
        simpa using heq
      rw [this]
      simp only [Bool.false_eq_true, if_false]
      constructor
      · intro hfalse
        exact absurd hfalse (by simp)
      · rintro rfl
        exact absurd rfl heq

/-- Witness for C5: the prefix pattern "npm run *" accepts "npm run build". -/
theorem bypass_matching_semantics_witness :
    isUnsandboxedCommand "npm" ["npm run *"] = false ∧
    ((parsePattern "npm run *").isPrefixMatch = true →
      (isUnsandboxedCommand "npm run build" ["npm run *"] = true ↔
        (parsePattern "npm run *").tokens.length ≤ (["npm", "run", "build"] : List String).length ∧
          (parsePattern "npm run *").tokens =
            (["npm", "run", "build"] : List String).take (parsePattern "npm run *").tokens.length)) ∧
    ((parsePattern "npm run *").isPrefixMatch = false →
      (isUnsandboxedCommand "npm run build" ["npm run *"] = true ↔
        (parsePattern "npm run *").tokens = ["npm", "run", "build"])) :=
  bypass_matching_semantics "npm run build" "npm run *" ["npm", "run", "build"] (by decide)

/-! ## Claim C6 -/

/-- C6: before tokenization, at most one trailing safe redirect is stripped,
chosen as the first match in the fixed priority-ordered list; consequently
"cmd 2>/dev/null" with pattern "cmd" is bypassed while "cmd > out.txt" is
compound and never bypassed.  The fourth conjunct states the strip precisely:
whenever `r` is the first list entry that is a suffix of the trimmed command
(every entry before `r` fails the suffix test), the result is the trimmed
command with exactly that one suffix removed and trailing whitespace trimmed
again. -/
theorem safe_redirect_stripping (c : String) :
    isUnsandboxedCommand "cmd 2>/dev/null" ["cmd"] = true ∧
    isUnsandboxedCommand "cmd > out.txt" ["cmd"] = false ∧
    ((∀ r ∈ SAFE_TRAILING_REDIRECTS, endsWithS (jsTrimEnd c) r = false) →
      stripSafeTrailingRedirects c = jsTrimEnd c) ∧
    (∀ r ∈ SAFE_TRAILING_REDIRECTS,
      endsWithS (jsTrimEnd c) r = true →
      (∀ r2 ∈ SAFE_TRAILING_REDIRECTS.takeWhile (fun x => x != r),
          endsWithS (jsTrimEnd c) r2 = false) →
      stripSafeTrailingRedirects c = jsTrimEnd (dropEndS (jsTrimEnd c) r.data.length)) := by
  refine ⟨by decide, by decide, ?_, ?_⟩
  · intro hall
    have h1 := hall _ (show ">/dev/null 2>&1" ∈ SAFE_TRAILING_REDIRECTS by decide)
    have h2 := hall _ (show "&>/dev/null" ∈ SAFE_TRAILING_REDIRECTS by decide)
    have h3 := hall _ (show "2>/dev/null" ∈ SAFE_TRAILING_REDIRECTS by decide)
    have h4 := hall _ (show "2>&1" ∈ SAFE_TRAILING_REDIRECTS by decide)
    simp [stripSafeTrailingRedirects, SAFE_TRAILING_REDIRECTS, List.find?, h1, h2, h3, h4]
  · intro r hr hends hbefore
    have hr4 : r = ">/dev/null 2>&1" ∨ r = "&>/dev/null" ∨ r = "2>/dev/null" ∨ r = "2>&1" := by
      simpa [SAFE_TRAILING_REDIRECTS] using hr
    rcases hr4 with rfl | rfl | rfl | rfl
    · simp [stripSafeTrailingRedirects, SAFE_TRAILING_REDIRECTS, List.find?, hends]
    · have h1 := hbefore _ (show ">/dev/null 2>&1" ∈ _ by decide)
      simp [stripSafeTrailingRedirects, SAFE_TRAILING_REDIRECTS, List.find?, h1, hends]
    · have h1 := hbefore _ (show ">/dev/null 2>&1" ∈ _ by decide)
      have h2 := hbefore _ (show "&>/dev/null" ∈ _ by decide)
      simp [stripSafeTrailingRedirects, SAFE_TRAILING_REDIRECTS, List.find?, h1, h2, hends]
    · have h1 := hbefore _ (show ">/dev/null 2>&1" ∈ _ by decide)
      have h2 := hbefore _ (show "&>/dev/null" ∈ _ by decide)
      have h3 := hbefore _ (show "2>/dev/null" ∈ _ by decide)
      simp [stripSafeTrailingRedirects, SAFE_TRAILING_REDIRECTS, List.find?, h1, h2, h3, hends]

/-- Witness for C6: stripping the "2>&1" suffix from "x 2>&1" (the three more
specific redirects do not match there). -/
theorem safe_redirect_stripping_witness :
    stripSafeTrailingRedirects "x 2>&1" = jsTrimEnd (dropEndS (jsTrimEnd "x 2>&1") ("2>&1").data.length) :=
  (safe_redirect_stripping "x 2>&1").2.2.2 "2>&1" (by decide) (by decide) (by decide)

/-! ## Claim C9 -/

/-- C9 counterexample: an empty pattern string parses to zero tokens and
exact-matches a command whose own token list is empty, so removing empty
patterns changes the result for the empty command. -/
theorem empty_pattern_matches_empty_command :
    isUnsandboxedCommand "" [""] = true ∧
    isUnsandboxedCommand "" (List.filter (fun p => p != "") [""]) = false := by decide

/-- C9 as amended: for every command whose token sequence (after stripping)
is non-empty — in particular every compound command and every command with at
least one word — empty pattern strings are skipped without error and never
contribute a match, so they can be removed from the pattern list without
changing the result. -/
theorem empty_patterns_removable (command : String) (patterns : List String)
    (h : parseCommand command ≠ some []) :
    isUnsandboxedCommand command patterns =
      isUnsandboxedCommand command (patterns.filter fun p => p != "") := by
  rcases hpc : parseCommand command with _ | cmdToks
  · simp [isUnsandboxedCommand, hpc]
  · have hne : cmdToks ≠ [] := by
      intro hnil
      exact h (hnil ▸ hpc)
    simp only [isUnsandboxedCommand, hpc]
    apply any_eq_any_filter
    cases cmdToks with
    | nil => exact absurd rfl hne
    | cons t ts => rfl

/-- Witness for C9 (amended), at the command "npm test" with an empty pattern
alongside a real one. -/
theorem empty_patterns_removable_witness :
    isUnsandboxedCommand "npm test" ["", "npm test"] =
      isUnsandboxedCommand "npm test" (["", "npm test"].filter fun p => p != "") :=
  empty_patterns_removable "npm test" ["", "npm test"] (by decide)

/-! ## Claim C10 -/

/-- C10: in a bypass pattern, any glob token other than a trailing bare `*`
is dropped from the pattern's token sequence and does not make the pattern a
prefix pattern: "git add *.txt" is treated as the exact two-token pattern
["git", "add"], so it matches the command "git add" and does not match
"git add foo.txt".  The final conjunct states the general rule: the kept
tokens are exactly the plain string tokens, and the prefix flag is set only
by a final bare `*` glob. -/
theorem glob_tokens_dropped_from_patterns :
    parsePattern "git add *.txt" = ⟨["git", "add"], false⟩ ∧
    isUnsandboxedCommand "git add" ["git add *.txt"] = true ∧
    isUnsandboxedCommand "git add foo.txt" ["git add *.txt"] = false ∧
    ∀ pat : String,
      (parsePattern pat).tokens = (shellParse (jsTrim pat)).filterMap strTokOf ∧
      ((parsePattern pat).isPrefixMatch = true ↔
        (shellParse (jsTrim pat)).getLast? = some (ShellToken.glob "*")) := by
  refine ⟨by decide, by decide, by decide, ?_⟩
  intro pat
  refine ⟨rfl, ?_⟩
  show (match (shellParse (jsTrim pat)).getLast? with
        | some (ShellToken.glob p) => p == "*"
        | _ => false) = true ↔ _
  rcases hlast : (shellParse (jsTrim pat)).getLast? with _ | t
  · simp
  · cases t with
    | str s => simp
    | glob p => simp [beq_iff_eq]
    | op o => simp
    | comment s => simp

/-! ## Claim C3 -/

/-- C3: if the resolved absolute path matches any denyWrite pattern,
`isWriteAllowed` is false regardless of allowWrite; otherwise, with a present
non-empty allowWrite list the result is exactly "some allowWrite pattern
matches"; otherwise the write is allowed. -/
theorem write_policy_structure (home path cwd : String) (config : SandboxConfig) :
    (((cfgDenyWrite config).getD []).any
        (fun pat => pathMatchesPattern home (resolvePath home path cwd) pat cwd) = true →
      isWriteAllowed home path cwd config = false) ∧
    (((cfgDenyWrite config).getD []).any
        (fun pat => pathMatchesPattern home (resolvePath home path cwd) pat cwd) = false →
      ∀ l, cfgAllowWrite config = some l → l ≠ [] →
        isWriteAllowed home path cwd config =
          l.any fun pat => pathMatchesPattern home (resolvePath home path cwd) pat cwd) ∧
    (((cfgDenyWrite config).getD []).any
        (fun pat => pathMatchesPattern home (resolvePath home path cwd) pat cwd) = false →
      (cfgAllowWrite config = none ∨ cfgAllowWrite config = some []) →
      isWriteAllowed home path cwd config = true) := by
  refine ⟨?_, ?_, ?_⟩
  · intro hdeny
    rcases hd : cfgDenyWrite config with _ | l
    · rw [hd] at hdeny
      simp at hdeny
    · rw [hd] at hdeny
      have hne : l ≠ [] := by
        intro hnil
        rw [hnil] at hdeny
        simp at hdeny
      simp only [isWriteAllowed, hd, Option.getD_some] at hdeny ⊢
      have : (!l.isEmpty) = true := by
        simpa [List.isEmpty_iff] using hne
      rw [hdeny, this]
      simp
  · intro hdeny l hl hne
    simp only [isWriteAllowed, hl]
    have hdenyHit :
        (match cfgDenyWrite config with
          | some l => !l.isEmpty && l.any fun pattern =>
              pathMatchesPattern home (resolvePath home path cwd) pattern cwd
          | none => false) = false := by
      rcases hd : cfgDenyWrite config with _ | dl
      · rfl
      · rw [hd, Option.getD_some] at hdeny
        simp [hdeny]
    rw [hdenyHit]
    have : (!l.isEmpty) = true := by
      simpa [List.isEmpty_iff] using hne
    simp [this]
  · intro hdeny hallow
    have hdenyHit :
        (match cfgDenyWrite config with
          | some l => !l.isEmpty && l.any fun pattern =>
              pathMatchesPattern home (resolvePath home path cwd) pattern cwd
          | none => false) = false := by
      rcases hd : cfgDenyWrite config with _ | dl
      · rfl
      · rw [hd, Option.getD_some] at hdeny
        simp [hdeny]
    rcases hallow with hl | hl
    · simp only [isWriteAllowed, hl, hdenyHit]
      simp
    · simp only [isWriteAllowed, hl, hdenyHit]
      simp

/-- Witness for C3: a denyWrite hit on basename ".env" wins over an allowWrite
list that also matches. -/
theorem write_policy_structure_witness :
    isWriteAllowed "/home/u" "/projects/myapp/.env" "/projects/myapp"
      ⟨some ⟨none, some ["."], some [".env"]⟩⟩ = false :=
  (write_policy_structure "/home/u" "/projects/myapp/.env" "/projects/myapp"
    ⟨some ⟨none, some ["."], some [".env"]⟩⟩).1 (by decide)

/-! ## Claim C7 -/

/-- C7: if the cancellation signal has fired by the time the supervised child
process closes, the close handler rejects with the Cancelled (aborted)
failure and not the Timeout failure, even when a timeout was also configured
and its timer has also fired before the close. -/
theorem cancel_beats_timeout :
    ∀ (timedOut : Bool) (timeoutSeconds : Nat) (exitCode : Option Int),
      closeOutcome true timedOut timeoutSeconds exitCode = ExecOutcome.rejectedAborted ∧
      ∀ t, ExecOutcome.rejectedAborted ≠ ExecOutcome.rejectedTimeout t := by
  intro timedOut timeoutSeconds exitCode
  exact ⟨rfl, fun t h => ExecOutcome.noConfusion h⟩

/-! ## Claim C8 -/

/-- C8 (code bug): at a nonzero exit with accumulated stderr "E" and an
annotation collaborator that returns its stderr argument unchanged, the
close handler emits the annotation of the empty string (an empty chunk)
unconditionally, while the specified behaviour (`annotateEmissionStated`,
modelled from the spec) annotates the delivered stderr and emits nothing
because the annotation adds no information. -/
theorem close_handler_annotates_empty_stderr :
    closeEmittedChunks (fun _ stderr => stderr) "mycmd" false false (some 1) = [""] ∧
    annotateEmissionStated (fun _ stderr => stderr) "mycmd" "E" (some 1) = [] ∧
    closeEmittedChunks (fun _ stderr => stderr) "mycmd" false false (some 1) ≠
      annotateEmissionStated (fun _ stderr => stderr) "mycmd" "E" (some 1) := by
  exact ⟨rfl, rfl, by decide⟩

/-! ## Lemmas about `splitOnChar` -/

/-- Splitting never yields the empty list of segments. -/
theorem splitOnChar_ne_nil (sep : Char) (l : List Char) : splitOnChar sep l ≠ [] := by
  cases l with
  | nil => simp [splitOnChar]
  | cons c cs =>
    by_cases h : c == sep
    · simp [splitOnChar, h]
    · simp only [splitOnChar, h]
      rcases hs : splitOnChar sep cs with _ | ⟨s, rest⟩
      · simp
      · simp

/-- Splitting a list that starts with a non-separator character: the first
segment picks up that character. -/
theorem splitOnChar_cons_ne (sep c : Char) (cs : List Char) (h : (c == sep) = false) :
    ∃ s1 rest1, splitOnChar sep cs = s1 :: rest1 ∧
      splitOnChar sep (c :: cs) = (c :: s1) :: rest1 := by
  rcases hs : splitOnChar sep cs with _ | ⟨s1, rest1⟩
  · exact absurd hs (splitOnChar_ne_nil sep cs)
  · exact ⟨s1, rest1, rfl, by simp [splitOnChar, h, hs]⟩

/-- Splitting an appended list: the last segment of the left part merges with
the first segment of the right part. -/
theorem splitOnChar_append (sep : Char) (a : List Char) :
    ∀ (b : List Char) (s0 : List Char) (srest : List (List Char)),
      splitOnChar sep b = s0 :: srest →
      ∀ (asegs : List (List Char)) (al : List Char),
        splitOnChar sep a = asegs ++ [al] →
        splitOnChar sep (a ++ b) = asegs ++ (al ++ s0) :: srest := by
  induction a with
  | nil =>
    intro b s0 srest hb asegs al ha
    simp only [splitOnChar] at ha
    rcases asegs with _ | ⟨a0, asegs'⟩
    · simp only [List.nil_append, List.cons.injEq] at ha
      simp [ha.1.symm, hb]
    · simp only [List.cons_append, List.cons.injEq] at ha
      exact absurd ha.2.symm (by simp)
  | cons c cs ih =>
    intro b s0 srest hb asegs al ha
    by_cases hc : c == sep
    · rcases hcs : splitOnChar sep cs with _ | ⟨s1, rest1⟩
      · exact absurd hcs (splitOnChar_ne_nil sep cs)
      · rw [show splitOnChar sep (c :: cs) = [] :: splitOnChar sep cs by simp [splitOnChar, hc]]
          at ha
        rcases asegs with _ | ⟨a0, asegs'⟩
        · simp only [List.nil_append, List.cons.injEq] at ha
          rw [hcs] at ha
          exact absurd ha.2.symm (by simp)
        · simp only [List.cons_append, List.cons.injEq] at ha
          obtain ⟨ha1, ha2⟩ := ha
          have hgoal := ih b s0 srest hb asegs' al ha2
          have heq : (c :: cs) ++ b = c :: (cs ++ b) := rfl
          rw [heq, show splitOnChar sep (c :: (cs ++ b)) = [] :: splitOnChar sep (cs ++ b) by
            simp [splitOnChar, hc]]
          rw [hgoal, ← ha1]
          rfl
    · have hcf : (c == sep) = false := by simpa using hc
      obtain ⟨s1, rest1, hcs, hccs⟩ := splitOnChar_cons_ne sep c cs hcf
      rw [hccs] at ha
      rcases asegs with _ | ⟨a0, asegs'⟩
      · simp only [List.nil_append, List.cons.injEq] at ha
        obtain ⟨ha1, ha2⟩ := ha
        subst ha1
        -- al = c :: s1 and rest1 = []
        have hcs' : splitOnChar sep cs = [] ++ [s1] := by
          rw [hcs, ha2]
          rfl
        have hgoal := ih b s0 srest hb [] s1 hcs'
        simp only [List.nil_append] at hgoal
        have heq : (c :: cs) ++ b = c :: (cs ++ b) := rfl
        rw [heq]
        obtain ⟨t1, trest, hcb, hccb⟩ := splitOnChar_cons_ne sep c (cs ++ b) hcf
        rw [hgoal] at hcb
        injection hcb with hcb1 hcb2
        rw [hccb, ← hcb1, ← hcb2]
        simp
      · simp only [List.cons_append, List.cons.injEq] at ha
        obtain ⟨ha1, ha2⟩ := ha
        subst ha1
        -- split cs = (s1 :: asegs') ++ [al]
        have hcs' : splitOnChar sep cs = (s1 :: asegs') ++ [al] := by
          rw [hcs, ha2]
          rfl
        have hgoal := ih b s0 srest hb (s1 :: asegs') al hcs'
        have heq : (c :: cs) ++ b = c :: (cs ++ b) := rfl
        rw [heq]
        obtain ⟨t1, trest, hcb, hccb⟩ := splitOnChar_cons_ne sep c (cs ++ b) hcf
        rw [hgoal] at hcb
        simp only [List.cons_append, List.cons.injEq] at hcb
        rw [hccb, ← hcb.1, ← hcb.2]
        simp

/-- Splitting around an explicit separator concatenates the two splits. -/
theorem splitOnChar_append_sep (sep : Char) (a b : List Char) :
    splitOnChar sep (a ++ sep :: b) = splitOnChar sep a ++ splitOnChar sep b := by
  rcases List.eq_nil_or_concat (splitOnChar sep a) with hnil | ⟨asegs, al, ha⟩
  · exact absurd hnil (splitOnChar_ne_nil sep a)
  · rw [List.concat_eq_append] at ha
    have hb : splitOnChar sep (sep :: b) = [] :: splitOnChar sep b := by
      simp [splitOnChar]
    have := splitOnChar_append sep a (sep :: b) [] (splitOnChar sep b) hb asegs al ha
    rw [this, ha]
    simp

/-- A character of a segment of a split is a character of the original list. -/
theorem mem_of_mem_splitOnChar (sep : Char) :
    ∀ (l : List Char) (seg : List Char), seg ∈ splitOnChar sep l → ∀ c ∈ seg, c ∈ l := by
  intro l
  induction l with
  | nil =>
    intro seg hseg c hc
    simp [splitOnChar] at hseg
    subst hseg
    simp at hc
  | cons c0 cs ih =>
    intro seg hseg c hc
    by_cases h0 : c0 == sep
    · rw [show splitOnChar sep (c0 :: cs) = [] :: splitOnChar sep cs by simp [splitOnChar, h0],
        List.mem_cons] at hseg
      rcases hseg with rfl | hseg
      · simp at hc
      · exact List.mem_cons_of_mem _ (ih seg hseg c hc)
    · have h0f : (c0 == sep) = false := by simpa using h0
      obtain ⟨s1, rest1, hcs, hccs⟩ := splitOnChar_cons_ne sep c0 cs h0f
      rw [hccs, List.mem_cons] at hseg
      rcases hseg with rfl | hseg
      · rw [List.mem_cons] at hc
        rcases hc with rfl | hc
        · exact List.mem_cons_self _ _
        · exact List.mem_cons_of_mem _ (ih s1 (by rw [hcs]; exact List.mem_cons_self _ _) c hc)
      · exact List.mem_cons_of_mem _ (ih seg (by rw [hcs]; exact List.mem_cons_of_mem _ hseg) c hc)

/-- The separator never occurs inside a segment of a split. -/
theorem sep_not_mem_splitOnChar (sep : Char) :
    ∀ (l : List Char) (seg : List Char), seg ∈ splitOnChar sep l → sep ∉ seg := by
  intro l
  induction l with
  | nil =>
    intro seg hseg
    simp [splitOnChar] at hseg
    subst hseg
    simp
  | cons c0 cs ih =>
    intro seg hseg
    by_cases h0 : c0 == sep
    · rw [show splitOnChar sep (c0 :: cs) = [] :: splitOnChar sep cs by simp [splitOnChar, h0],
        List.mem_cons] at hseg
      rcases hseg with rfl | hseg
      · simp
      · exact ih seg hseg
    · have h0f : (c0 == sep) = false := by simpa using h0
      obtain ⟨s1, rest1, hcs, hccs⟩ := splitOnChar_cons_ne sep c0 cs h0f
      rw [hccs, List.mem_cons] at hseg
      rcases hseg with rfl | hseg
      · intro hmem
        rw [List.mem_cons] at hmem
        rcases hmem with rfl | hmem
        · simp at h0f
        · exact ih s1 (by rw [hcs]; exact List.mem_cons_self _ _) hmem
      · exact ih seg (by rw [hcs]; exact List.mem_cons_of_mem _ hseg)

/-! ## Lemmas about segment matching -/

/-- A wildcard-free segment pattern matches only itself. -/
theorem globChars_lit (p : List Char) (hlit : ∀ ch ∈ p, ch ≠ '*' ∧ ch ≠ '?') :
    ∀ t, globChars p t = true ↔ p = t := by
  induction p with
  | nil =>
    intro t
    cases t <;> simp [globChars]
  | cons c ps ih =>
    intro t
    have hc := hlit c (List.mem_cons_self _ _)
    have hstar : (c == '*') = false := by simpa using hc.1
    have hq : (c == '?') = false := by simpa using hc.2
    have ih' := ih fun ch hch => hlit ch (List.mem_cons_of_mem _ hch)
    cases t with
    | nil => simp [globChars, hstar, hq]
    | cons c2 ts =>
      simp only [globChars, hstar, hq, Bool.false_eq_true, if_false, Bool.and_eq_true,
        beq_iff_eq, ih', List.cons.injEq]

/-- Same, with the dotfile guard (vacuous for wildcard-free patterns). -/
theorem globSegMatch_lit (p : List Char) (hlit : ∀ ch ∈ p, ch ≠ '*' ∧ ch ≠ '?') :
    ∀ t, globSegMatch p t = true ↔ p = t := by
  intro t
  have hcond : ((p.head? == some '*' || p.head? == some '?') && t.head? == some '.') = false := by
    cases p with
    | nil => simp
    | cons c ps =>
      have hc := hlit c (List.mem_cons_self _ _)
      simp [hc.1, hc.2]
  simp only [globSegMatch, hcond, Bool.false_eq_true, if_false]
  exact globChars_lit p hlit t

/-- A list of wildcard-free segment patterns matches only itself. -/
theorem segsMatch_lit (ps : List (List Char))
    (hlit : ∀ seg ∈ ps, ∀ ch ∈ seg, ch ≠ '*' ∧ ch ≠ '?') :
    ∀ ts, segsMatch ps ts = true ↔ ps = ts := by
  induction ps with
  | nil =>
    intro ts
    cases ts <;> simp [segsMatch]
  | cons p ps ih =>
    intro ts
    have hp := hlit p (List.mem_cons_self _ _)
    have hpstar : (p == ['*', '*']) = false := by
      apply beq_eq_false_iff_ne.mpr
      intro hps
      subst hps
      exact (hp '*' (by simp)).1 rfl
    have ih' := ih fun seg hseg => hlit seg (List.mem_cons_of_mem _ hseg)
    cases ts with
    | nil => simp [segsMatch, hpstar]
    | cons t ts2 =>
      simp only [segsMatch, hpstar, Bool.false_eq_true, if_false, Bool.and_eq_true,
        globSegMatch_lit p hp, ih', List.cons.injEq]

/-- The globstar step with an emptiness continuation succeeds exactly on lists
of non-dot-initial segments. -/
theorem star2Consume_isEmpty_iff (next : List (List Char) → Bool)
    (hnext : ∀ l, next l = l.isEmpty) :
    ∀ ts, star2Consume next ts = true ↔ ∀ seg ∈ ts, noDotHead seg = true := by
  intro ts
  induction ts with
  | nil => simp [star2Consume, hnext]
  | cons t ts ih =>
    simp only [star2Consume, hnext, List.isEmpty_cons, Bool.or_eq_true, Bool.and_eq_true, ih,
      Bool.false_eq_true, false_or]
    constructor
    · rintro ⟨h1, h2⟩
      intro seg hseg
      rw [List.mem_cons] at hseg
      rcases hseg with rfl | hseg
      · exact h1
      · exact h2 seg hseg
    · intro h
      exact ⟨h t (List.mem_cons_self _ _), fun seg hseg => h seg (List.mem_cons_of_mem _ hseg)⟩

/-- A wildcard-free pattern followed by a trailing `**` matches exactly the
lists that extend it by non-dot-initial segments. -/
theorem segsMatch_lit_star2 (ps : List (List Char))
    (hlit : ∀ seg ∈ ps, ∀ ch ∈ seg, ch ≠ '*' ∧ ch ≠ '?') :
    ∀ ts, segsMatch (ps ++ [['*', '*']]) ts = true ↔
      ∃ t2, ts = ps ++ t2 ∧ ∀ seg ∈ t2, noDotHead seg = true := by
  induction ps with
  | nil =>
    intro ts
    rw [List.nil_append,
      show segsMatch [['*', '*']] ts = star2Consume (fun ts2 => segsMatch [] ts2) ts from rfl,
      star2Consume_isEmpty_iff (fun ts2 => segsMatch [] ts2) (fun l => rfl) ts]
    constructor
    · intro h
      exact ⟨ts, by simp, h⟩
    · rintro ⟨t2, rfl, h⟩
      simpa using h
  | cons p ps ih =>
    intro ts
    have hp := hlit p (List.mem_cons_self _ _)
    have hpstar : (p == ['*', '*']) = false := by
      apply beq_eq_false_iff_ne.mpr
      intro hps
      subst hps
      exact (hp '*' (by simp)).1 rfl
    have ih' := ih fun seg hseg => hlit seg (List.mem_cons_of_mem _ hseg)
    cases ts with
    | nil =>
      rw [List.cons_append]
      simp only [segsMatch, hpstar, Bool.false_eq_true, if_false]
      constructor
      · intro h
        exact absurd h (by simp)
      · rintro ⟨t2, heq, -⟩
        exact absurd heq (by simp)
    | cons t ts2 =>
      rw [List.cons_append]
      simp only [segsMatch, hpstar, Bool.false_eq_true, if_false, Bool.and_eq_true,
        globSegMatch_lit p hp, ih']
      constructor
      · rintro ⟨rfl, t2, rfl, h⟩
        exact ⟨t2, rfl, h⟩
      · rintro ⟨t2, heq, h⟩
        rw [List.cons_append] at heq
        injection heq with h1 h2
        exact ⟨h1.symm, t2, h2, h⟩

/-! ## String-level helpers for the path matcher -/

/-- Appending strings appends their character lists. -/
theorem strDataAppend (a b : String) : (a ++ b).data = a.data ++ b.data := by
  rcases a with ⟨ad⟩
  rcases b with ⟨bd⟩
  rfl

/-- Strings with equal character lists are equal. -/
theorem stringEqOfData {a b : String} (h : a.data = b.data) : a = b :=
  congrArg String.mk h

/-- Lemma: `takeWhile` and `dropWhile` skip over a block that satisfies the
predicate. -/
theorem takeWhile_dropWhile_append (p : Char → Bool) (a b : List Char)
    (h : ∀ c ∈ a, p c = true) :
    (a ++ b).takeWhile p = a ++ b.takeWhile p ∧ (a ++ b).dropWhile p = b.dropWhile p := by
  induction a with
  | nil => simp
  | cons c cs ih =>
    have hc := h c (List.mem_cons_self _ _)
    have ih' := ih fun x hx => h x (List.mem_cons_of_mem _ hx)
    simp only [List.cons_append, List.takeWhile_cons, List.dropWhile_cons, hc, if_true,
      List.cons.injEq, true_and]
    exact ⟨ih'.1, ih'.2⟩

/-- Brace expansion of a brace-free pattern extended by the appended suffix:
exactly the two alternatives, the pattern itself and the pattern with a
globstar child. -/
theorem braceExpand_suffix (P : String) (h : ∀ c ∈ P.data, c ≠ '{') :
    braceExpand (P ++ braceSuffix) = [P, P ++ "/**"] := by
  have hdata : (P ++ braceSuffix).data = P.data ++ braceSuffix.data := strDataAppend P braceSuffix
  have hall : ∀ c ∈ P.data, (c != '{') = true := by
    intro c hc
    simpa using h c hc
  obtain ⟨htake, hdrop⟩ :=
    takeWhile_dropWhile_append (fun c => c != '{') P.data braceSuffix.data hall
  rw [braceExpand, hdata, htake, hdrop]
  show [(⟨P.data ++ [] ++ [] ++ []⟩ : String), (⟨P.data ++ [] ++ ['/', '*', '*'] ++ []⟩ : String)]
      = [P, P ++ "/**"]
  simp only [List.append_nil]
  have h2 : (⟨P.data ++ ['/', '*', '*']⟩ : String) = P ++ "/**" := by
    apply stringEqOfData
    rw [strDataAppend]
  rw [h2]

/-- The kept-token part of picomatch's test: a nonempty input that is not
literally the glob string matches exactly when some brace alternative matches
the (basename-adjusted) input. -/
theorem picomatchIsMatch_eq_any (path pattern : String) (mb : Bool)
    (hne : (path == "") = false) (hshort : (path == pattern) = false) :
    picomatchIsMatch path pattern mb =
      (braceExpand pattern).any fun alt =>
        segsMatch (splitOnChar '/' alt.data)
          (splitOnChar '/' (if mb then basenameStr path else path).data) := by
  simp only [picomatchIsMatch, hne, hshort, Bool.false_eq_true, if_false]

/-- A successful alternative makes picomatch succeed for a nonempty input. -/
theorem picomatchIsMatch_of_any (path pattern : String) (mb : Bool)
    (hne : (path == "") = false)
    (hany : ((braceExpand pattern).any fun alt =>
        segsMatch (splitOnChar '/' alt.data)
          (splitOnChar '/' (if mb then basenameStr path else path).data)) = true) :
    picomatchIsMatch path pattern mb = true := by
  by_cases hshort : (path == pattern) = true
  · simp [picomatchIsMatch, hne, hshort]
  · have hshort' : (path == pattern) = false := by simpa using hshort
    rw [picomatchIsMatch_eq_any path pattern mb hne hshort', hany]

/-- A string whose character list starts with some character is not empty. -/
theorem string_ne_empty_of_data (P : String) {c : Char} {t : List Char}
    (h : P.data = c :: t) : (P == "") = false := by
  apply beq_eq_false_iff_ne.mpr
  intro he
  subst he
  have hnil : ("" : String).data = [] := rfl
  rw [hnil] at h
  exact absurd h (by simp)

/-- An absolute path string has a slash-headed character list. -/
theorem startsWith_slash_data (P : String) (h : startsWithS P "/" = true) :
    ∃ t, P.data = '/' :: t := by
  have h' : (['/'] : List Char).isPrefixOf P.data = true := h
  rcases hd : P.data with _ | ⟨c, t⟩
  · rw [hd] at h'
    simp [List.isPrefixOf] at h'
  · rw [hd] at h'
    simp only [List.isPrefixOf, Bool.and_eq_true, beq_iff_eq] at h'
    exact ⟨t, by rw [h'.1]⟩

/-- A character that does not occur in a string makes `includesC` false. -/
theorem includesC_eq_false (s : String) (c : Char) (h : c ∉ s.data) :
    includesC s c = false := by
  apply Bool.eq_false_iff.mpr
  intro htrue
  exact h (by simpa [includesC] using htrue)

/-- For an absolute wildcard-free pattern, `pathMatchesPattern` is picomatch
on the pattern broadened by the brace suffix, in full-path (non-basename)
mode. -/
theorem pathMatchesPattern_abs (home cwd P path : String)
    (habs : startsWithS P "/" = true)
    (hstar : includesC P '*' = false) (hq : includesC P '?' = false) :
    pathMatchesPattern home path P cwd = picomatchIsMatch path (P ++ braceSuffix) false := by
  obtain ⟨t, hdata⟩ := startsWith_slash_data P habs
  have h1 : startsWithS P "~/" = false := by
    show (['~', '/'] : List Char).isPrefixOf P.data = false
    rw [hdata]
    rfl
  have h2 : (P == "~") = false := by
    apply beq_eq_false_iff_ne.mpr
    intro he
    rw [he] at hdata
    have hd2 : ('~' :: [] : List Char) = '/' :: t := hdata
    injection hd2 with hd3 _
    exact absurd hd3 (by decide)
  have h3 : (P == ".") = false := by
    apply beq_eq_false_iff_ne.mpr
    intro he
    rw [he] at hdata
    have hd2 : ('.' :: [] : List Char) = '/' :: t := hdata
    injection hd2 with hd3 _
    exact absurd hd3 (by decide)
  have h4 : startsWithS P "./" = false := by
    show (['.', '/'] : List Char).isPrefixOf P.data = false
    rw [hdata]
    rfl
  have h6 : includesC P '/' = true := by
    show P.data.contains '/' = true
    rw [hdata]
    rfl
  simp only [pathMatchesPattern, h1, h2, h3, h4, habs, h6, hstar, hq, Bool.not_true,
    Bool.not_false, Bool.false_and, Bool.true_and, Bool.false_eq_true, if_false, if_true]

/-- C2 (amended): for an absolute pattern `P` with no wildcard and no opening
brace, `pathMatchesPattern` accepts `P` itself and every `P/x` whose extra
segments do not start with a dot, and rejects every string extension `P ++ s`
of the final segment (`s` nonempty, not starting with a separator, and
different from the literal brace suffix the matcher appends, which the
underlying matcher accepts through its input-equals-glob shortcut). -/
theorem directory_prefix_matching (home cwd P : String)
    (habs : startsWithS P "/" = true)
    (hmeta : ∀ c ∈ P.data, c ≠ '*' ∧ c ≠ '?' ∧ c ≠ '{') :
    pathMatchesPattern home P P cwd = true ∧
    (∀ x : String, (∀ seg ∈ splitOnChar '/' x.data, noDotHead seg = true) →
      pathMatchesPattern home (P ++ "/" ++ x) P cwd = true) ∧
    (∀ s : String, s ≠ "" → startsWithS s "/" = false → s ≠ braceSuffix →
      pathMatchesPattern home (P ++ s) P cwd = false) := by
  obtain ⟨t, hdata⟩ := startsWith_slash_data P habs
  have hstar : includesC P '*' = false :=
    includesC_eq_false P '*' fun hc => (hmeta _ hc).1 rfl
  have hq : includesC P '?' = false :=
    includesC_eq_false P '?' fun hc => (hmeta _ hc).2.1 rfl
  have hlit : ∀ seg ∈ splitOnChar '/' P.data, ∀ ch ∈ seg, ch ≠ '*' ∧ ch ≠ '?' :=
    fun seg hseg ch hch =>
      ⟨(hmeta ch (mem_of_mem_splitOnChar '/' P.data seg hseg ch hch)).1,
       (hmeta ch (mem_of_mem_splitOnChar '/' P.data seg hseg ch hch)).2.1⟩
  have hbrace : braceExpand (P ++ braceSuffix) = [P, P ++ "/**"] :=
    braceExpand_suffix P fun c hc => (hmeta c hc).2.2
  have hsplitStar : splitOnChar '/' (P ++ "/**").data =
      splitOnChar '/' P.data ++ [['*', '*']] := by
    rw [show (P ++ "/**").data = P.data ++ '/' :: ['*', '*'] from strDataAppend P "/**",
      splitOnChar_append_sep]
    rfl
  refine ⟨?_, ?_, ?_⟩
  · -- the pattern matches itself
    rw [pathMatchesPattern_abs home cwd P P habs hstar hq]
    apply picomatchIsMatch_of_any _ _ _ (string_ne_empty_of_data P hdata)
    rw [hbrace]
    show (segsMatch (splitOnChar '/' P.data) (splitOnChar '/' P.data) ||
      (segsMatch (splitOnChar '/' (P ++ "/**").data) (splitOnChar '/' P.data) || false)) = true
    rw [(segsMatch_lit _ hlit (splitOnChar '/' P.data)).mpr rfl]
    simp
  · -- descendants with non-dot segments match
    intro x hx
    rw [pathMatchesPattern_abs home cwd P (P ++ "/" ++ x) habs hstar hq]
    have hpathdata : (P ++ "/" ++ x).data = P.data ++ '/' :: x.data := by
      rw [strDataAppend (P ++ "/") x, strDataAppend P "/"]
      simp
    have hne : ((P ++ "/" ++ x) == "") = false := by
      apply @string_ne_empty_of_data (P ++ "/" ++ x) '/' (t ++ '/' :: x.data)
      rw [hpathdata, hdata]
      simp
    apply picomatchIsMatch_of_any _ _ _ hne
    rw [hbrace]
    show (segsMatch (splitOnChar '/' P.data) (splitOnChar '/' (P ++ "/" ++ x).data) ||
      (segsMatch (splitOnChar '/' (P ++ "/**").data) (splitOnChar '/' (P ++ "/" ++ x).data)
        || false)) = true
    have hsecond : segsMatch (splitOnChar '/' (P ++ "/**").data)
        (splitOnChar '/' (P ++ "/" ++ x).data) = true := by
      rw [hsplitStar, hpathdata, splitOnChar_append_sep]
      exact (segsMatch_lit_star2 _ hlit _).mpr ⟨splitOnChar '/' x.data, rfl, hx⟩
    rw [hsecond]
    simp
  · -- string extensions of the last segment do not match
    intro s hs0 hs1 hs2
    rw [pathMatchesPattern_abs home cwd P (P ++ s) habs hstar hq]
    rcases hsd : s.data with _ | ⟨c, cs⟩
    · exact absurd (stringEqOfData (by rw [hsd])) hs0
    have hpathdata : (P ++ s).data = P.data ++ s.data := strDataAppend P s
    have hne : ((P ++ s) == "") = false := by
      apply @string_ne_empty_of_data (P ++ s) '/' (t ++ s.data)
      rw [hpathdata, hdata]
      simp
    have hshort : ((P ++ s) == P ++ braceSuffix) = false := by
      apply beq_eq_false_iff_ne.mpr
      intro he
      apply hs2
      apply stringEqOfData
      have := congrArg String.data he
      rw [strDataAppend P s, strDataAppend P braceSuffix] at this
      exact List.append_cancel_left this
    have hcne : c ≠ '/' := by
      intro hec
      subst hec
      have h' : (['/'] : List Char).isPrefixOf s.data = false := hs1
      rw [hsd] at h'
      simp [List.isPrefixOf] at h'
    have hcb : (c == '/') = false := beq_eq_false_iff_ne.mpr hcne
    obtain ⟨s1, rest1, hscs, hssplit⟩ := splitOnChar_cons_ne '/' c cs hcb
    rcases List.eq_nil_or_concat (splitOnChar '/' P.data) with hnil | ⟨asegs, al, hPdecomp⟩
    · exact absurd hnil (splitOnChar_ne_nil '/' P.data)
    rw [List.concat_eq_append] at hPdecomp
    have hsplitPS : splitOnChar '/' (P ++ s).data = asegs ++ (al ++ (c :: s1)) :: rest1 := by
      rw [hpathdata]
      exact splitOnChar_append '/' P.data s.data (c :: s1) rest1 (by rw [hsd, hssplit])
        asegs al hPdecomp
    have halt1 : segsMatch (splitOnChar '/' P.data)
        (splitOnChar '/' (P ++ s).data) = false := by
      apply Bool.eq_false_iff.mpr
      intro htrue
      have heq := (segsMatch_lit _ hlit _).mp htrue
      rw [hPdecomp, hsplitPS] at heq
      have h2 := List.append_cancel_left heq
      injection h2 with h3 h4
      have hlen := congrArg List.length h3
      simp at hlen
    have halt2 : segsMatch (splitOnChar '/' (P ++ "/**").data)
        (splitOnChar '/' (P ++ s).data) = false := by
      rw [hsplitStar]
      apply Bool.eq_false_iff.mpr
      intro htrue
      obtain ⟨t2, ht2, -⟩ := (segsMatch_lit_star2 _ hlit _).mp htrue
      rw [hsplitPS, hPdecomp] at ht2
      rw [List.append_assoc] at ht2
      have h2 := List.append_cancel_left ht2
      have h2' : (al ++ (c :: s1)) :: rest1 = al :: t2 := h2
      injection h2' with h3 h4
      have hlen := congrArg List.length h3
      simp at hlen
    rw [picomatchIsMatch_eq_any (P ++ s) (P ++ braceSuffix) false hne hshort, hbrace]
    show ((([P, P ++ "/**"]).any fun alt => segsMatch (splitOnChar '/' alt.data)
      (splitOnChar '/' (P ++ s).data)) = false)
    simp only [List.any_cons, List.any_nil, halt1, halt2, Bool.or_false]

/-- C2 counterexample to the claim as stated: for the wildcard-free pattern
"/a", the nested dotfile "/a/.b" does not match (picomatch's default dotfile
rule); the string extension of the final segment by the literal brace suffix
does match (the matcher's input-equals-glob shortcut); and for the slash-free
pattern ".env" a nested path ".env/x" does not match (basename mode). -/
theorem directory_prefix_matching_counterexample :
    pathMatchesPattern "/home/u" "/a/.b" "/a" "/cwd" = false ∧
    pathMatchesPattern "/home/u" ("/a" ++ braceSuffix) "/a" "/cwd" = true ∧
    pathMatchesPattern "/home/u" ".env/x" ".env" "/cwd" = false := by
  exact ⟨by decide, by decide, by decide⟩

/-! ## Basename preservation through path resolution -/

/-- The last element of a list with a nonempty appended part. -/
theorem getLastD_append_right (l1 l2 : List (List Char)) (d : List Char) (h : l2 ≠ []) :
    (l1 ++ l2).getLastD d = l2.getLastD d := by
  rcases List.eq_nil_or_concat l2 with h2 | ⟨m, e, h2⟩
  · exact absurd h2 h
  · rw [h2, List.concat_eq_append, ← List.append_assoc, List.getLastD_concat,
      List.getLastD_concat]

/-- Decompose a list whose nonempty-filtered last element is `e`: everything
after the last nonempty element is empty. -/
theorem getLastD_filter_decomp (l : List (List Char)) (e : List Char) (hne : e ≠ [])
    (h : ((l.filter fun seg => seg != []).getLastD []) = e) :
    ∃ init tail, l = init ++ e :: tail ∧ ∀ seg ∈ tail, seg = [] := by
  induction l using List.reverseRecOn with
  | nil =>
    simp only [List.filter_nil, List.getLastD_nil] at h
    exact absurd h.symm hne
  | append_singleton l a ih =>
    by_cases ha : a = []
    · subst ha
      rw [List.filter_append, show List.filter (fun seg => seg != []) [[]] = [] from by simp,
        List.append_nil] at h
      obtain ⟨init, tail, hdec, htail⟩ := ih h
      refine ⟨init, tail ++ [[]], by rw [hdec]; simp, ?_⟩
      intro seg hseg
      rw [List.mem_append] at hseg
      rcases hseg with hseg | hseg
      · exact htail seg hseg
      · simpa using hseg
    · have ha' : (a != []) = true := by simpa using ha
      rw [List.filter_append, show List.filter (fun seg => seg != []) [a] = [a] from by
          simp [ha'], List.getLastD_concat] at h
      subst h
      exact ⟨l, [], by simp, by simp⟩

/-- A separator-free list splits into the single segment holding it. -/
theorem splitOnChar_no_sep (sep : Char) (l : List Char) (h : sep ∉ l) :
    splitOnChar sep l = [l] := by
  induction l with
  | nil => rfl
  | cons c cs ih =>
    have hc : (c == sep) = false := by
      apply beq_eq_false_iff_ne.mpr
      intro he
      exact h (by rw [← he]; exact List.mem_cons_self _ _)
    obtain ⟨s1, rest1, hcs, hccs⟩ := splitOnChar_cons_ne sep c cs hc
    rw [ih fun hm => h (List.mem_cons_of_mem _ hm)] at hcs
    injection hcs with e1 e2
    rw [hccs, ← e1, ← e2]

/-- Splitting inverts joining for separator-free segments. -/
theorem splitOnChar_joinSegs (kept : List (List Char)) (hne : kept ≠ [])
    (hsub : ∀ seg ∈ kept, '/' ∉ seg) :
    splitOnChar '/' (joinSegs kept) = kept := by
  induction kept with
  | nil => exact absurd rfl hne
  | cons seg rest ih =>
    cases rest with
    | nil =>
      show splitOnChar '/' seg = [seg]
      exact splitOnChar_no_sep '/' seg (hsub seg (List.mem_cons_self _ _))
    | cons seg2 rest2 =>
      show splitOnChar '/' (seg ++ '/' :: joinSegs (seg2 :: rest2)) = seg :: seg2 :: rest2
      rw [splitOnChar_append_sep, splitOnChar_no_sep '/' seg (hsub seg (List.mem_cons_self _ _)),
        ih (by simp) fun s hs => hsub s (List.mem_cons_of_mem _ hs)]
      rfl

/-- Normalisation skips a block of empty segments. -/
theorem foldl_normStep_skip (tail : List (List Char)) (h : ∀ seg ∈ tail, seg = []) :
    ∀ acc, List.foldl normStep acc tail = acc := by
  induction tail with
  | nil => intro acc; rfl
  | cons seg rest ih =>
    intro acc
    have hseg := h seg (List.mem_cons_self _ _)
    subst hseg
    rw [List.foldl_cons, show normStep acc [] = acc from rfl]
    exact ih (fun s hs => h s (List.mem_cons_of_mem _ hs)) acc

/-- Members of a normalisation come from the accumulator or the input. -/
theorem mem_foldl_normStep (l : List (List Char)) :
    ∀ acc seg, seg ∈ List.foldl normStep acc l → seg ∈ acc ∨ seg ∈ l := by
  induction l with
  | nil =>
    intro acc seg h
    exact Or.inl h
  | cons x xs ih =>
    intro acc seg h
    rw [List.foldl_cons] at h
    rcases ih (normStep acc x) seg h with h2 | h2
    · unfold normStep at h2
      by_cases c1 : (x == [] || x == ['.']) = true
      · rw [if_pos c1] at h2
        exact Or.inl h2
      · rw [if_neg c1] at h2
        by_cases c2 : (x == ['.', '.']) = true
        · rw [if_pos c2] at h2
          exact Or.inl (( List.dropLast_prefix acc).subset h2)
        · rw [if_neg c2] at h2
          rw [List.mem_append] at h2
          rcases h2 with h2 | h2
          · exact Or.inl h2
          · right
            rw [List.mem_cons]
            exact Or.inl (by simpa using h2)
    · exact Or.inr (List.mem_cons_of_mem _ h2)

/-- Basename of the normalised rejoined path: the last nonempty, non-dot
segment of the input survives as the basename. -/
theorem basename_joinAbs (segs : List (List Char)) (b : List Char)
    (hsub : ∀ seg ∈ segs, '/' ∉ seg)
    (hlast : ((segs.filter fun seg => seg != []).getLastD []) = b)
    (hne : b ≠ []) (hd1 : b ≠ ['.']) (hd2 : b ≠ ['.', '.']) :
    basenameStr (joinAbs (normalizeAbs segs)) = ⟨b⟩ := by
  obtain ⟨init, tail, hdec, htail⟩ := getLastD_filter_decomp segs b hne hlast
  have hb1 : (b == []) = false := beq_eq_false_iff_ne.mpr hne
  have hb2 : (b == ['.']) = false := beq_eq_false_iff_ne.mpr hd1
  have hb3 : (b == ['.', '.']) = false := beq_eq_false_iff_ne.mpr hd2
  have hnorm : normalizeAbs segs = normalizeAbs init ++ [b] := by
    rw [normalizeAbs, hdec, List.foldl_append, List.foldl_cons,
      show normStep (List.foldl normStep [] init) b = List.foldl normStep [] init ++ [b] from by
        simp [normStep, hb1, hb2, hb3],
      foldl_normStep_skip tail htail]
    rfl
  have hmemN : ∀ seg ∈ normalizeAbs segs, '/' ∉ seg := by
    intro seg hseg
    rcases mem_foldl_normStep segs [] seg hseg with h | h
    · simp at h
    · exact hsub seg h
  have hkne : normalizeAbs segs ≠ [] := by
    rw [hnorm]
    simp
  have hsplit : splitOnChar '/' ('/' :: joinSegs (normalizeAbs segs)) =
      [] :: normalizeAbs segs := by
    rw [show ('/' :: joinSegs (normalizeAbs segs) : List Char) =
        [] ++ '/' :: joinSegs (normalizeAbs segs) from rfl, splitOnChar_append_sep,
      splitOnChar_joinSegs _ hkne hmemN]
    rfl
  have hfinal : ((splitOnChar '/' ('/' :: joinSegs (normalizeAbs segs))).filter
      fun seg => seg != []).getLastD [] = b := by
    rw [hsplit, hnorm,
      show (([] : List Char) :: (normalizeAbs init ++ [b])).filter (fun seg => seg != []) =
        (normalizeAbs init ++ [b]).filter (fun seg => seg != []) from by simp,
      List.filter_append,
      show List.filter (fun seg => seg != []) [b] = [b] from by simp [hne],
      List.getLastD_concat]
  exact congrArg String.mk hfinal

/-- The character list of a string with a true `startsWithS` test decomposes. -/
theorem startsWith_data_decomp (path pre : String) (h : startsWithS path pre = true) :
    ∃ t, path.data = pre.data ++ t := by
  have h' : pre.data <+: path.data := by
    rw [← List.isPrefixOf_iff_prefix]
    exact h
  obtain ⟨t, ht⟩ := h'
  exact ⟨t, ht.symm⟩

/-- A resolved path always begins with a separator. -/
theorem resolvePath_data_head (home path cwd : String) :
    ∃ t2, (resolvePath home path cwd).data = '/' :: t2 := by
  simp only [resolvePath]
  generalize (if startsWithS path "~/" then home ++ dropFirstS path
    else if path == "~" then home else path) = p1
  by_cases habs : startsWithS p1 "/" = true
  · simp only [habs, if_true]
    exact startsWith_slash_data p1 habs
  · have habs' : startsWithS p1 "/" = false := by simpa using habs
    simp only [habs', Bool.false_eq_true, if_false]
    exact ⟨_, rfl⟩

/-- Resolution against a working directory preserves a basename that is not
empty, `.` or `..`. -/
theorem basename_resolveJoin (cwd p1 : String) (b : List Char)
    (hlastp1 : ((splitOnChar '/' p1.data).filter fun seg => seg != []).getLastD [] = b)
    (hne : b ≠ []) (hd1 : b ≠ ['.']) (hd2 : b ≠ ['.', '.']) :
    basenameStr (resolveJoin cwd p1) = ⟨b⟩ := by
  have hfilter_ne : ((splitOnChar '/' p1.data).filter fun seg => seg != []) ≠ [] := by
    intro h0
    rw [h0] at hlastp1
    exact hne hlastp1.symm
  simp only [resolveJoin, joinAbs]
  by_cases habs : startsWithS p1 "/" = true
  · simp only [habs, if_true]
    exact basename_joinAbs _ b (sep_not_mem_splitOnChar '/' p1.data) hlastp1 hne hd1 hd2
  · have habs' : startsWithS p1 "/" = false := by simpa using habs
    simp only [habs', Bool.false_eq_true, if_false]
    apply basename_joinAbs _ b (sep_not_mem_splitOnChar '/' (cwd ++ "/" ++ p1).data) _ hne hd1 hd2
    rw [show (cwd ++ "/" ++ p1).data = cwd.data ++ '/' :: p1.data from by
        rw [strDataAppend (cwd ++ "/") p1, strDataAppend cwd "/"]; simp,
      splitOnChar_append_sep, List.filter_append]
    rw [getLastD_append_right _ _ _ hfilter_ne]
    exact hlastp1

/-- Resolution by `resolvePath` preserves a basename that is not empty, `.`, `..` or `~`
(for a candidate path other than the bare `~`). -/
theorem basename_resolvePath (home path cwd : String) (b : List Char)
    (hb : basenameStr path = ⟨b⟩) (hne : b ≠ []) (hd1 : b ≠ ['.']) (hd2 : b ≠ ['.', '.'])
    (hnt : path ≠ "~") (hnh : b ≠ ['~']) :
    basenameStr (resolvePath home path cwd) = ⟨b⟩ := by
  have hbl : ((splitOnChar '/' path.data).filter fun seg => seg != []).getLastD [] = b :=
    congrArg String.data hb
  simp only [resolvePath]
  by_cases h1 : startsWithS path "~/" = true
  · -- tilde expansion: path.data = '~' :: '/' :: r
    obtain ⟨r, hr⟩ := startsWith_data_decomp path "~/" h1
    have hr' : path.data = '~' :: '/' :: r := hr
    have hsplitp : splitOnChar '/' path.data = ['~'] :: splitOnChar '/' r := by
      rw [hr']
      obtain ⟨s1, rest1, hcs, hccs⟩ := splitOnChar_cons_ne '/' '~' ('/' :: r) (by decide)
      have hsl : splitOnChar '/' ('/' :: r) = [] :: splitOnChar '/' r := by
        simp [splitOnChar]
      rw [hsl] at hcs
      injection hcs with e1 e2
      rw [hccs, ← e1, ← e2]
    have hfr : ((splitOnChar '/' r).filter fun seg => seg != []).getLastD [] = b := by
      rw [hsplitp,
        show ((['~'] : List Char) :: splitOnChar '/' r).filter (fun seg => seg != []) =
          ['~'] :: (splitOnChar '/' r).filter (fun seg => seg != []) from by simp,
        List.getLastD_cons] at hbl
      rcases hfr0 : (splitOnChar '/' r).filter fun seg => seg != [] with _ | ⟨z, zs⟩
      · rw [hfr0] at hbl
        simp only [List.getLastD_nil] at hbl
        exact absurd hbl.symm hnh
      · rw [hfr0] at hbl
        rw [List.getLastD_cons] at hbl
        rw [List.getLastD_cons]
        exact hbl
    have hfrne : ((splitOnChar '/' r).filter fun seg => seg != []) ≠ [] := by
      intro h0
      rw [h0] at hfr
      exact hne hfr.symm
    have hp1 : (home ++ dropFirstS path).data = home.data ++ '/' :: r := by
      rw [strDataAppend]
      show home.data ++ path.data.drop 1 = home.data ++ '/' :: r
      rw [hr']
      rfl
    have hlastp1 : ((splitOnChar '/' (home ++ dropFirstS path).data).filter
        fun seg => seg != []).getLastD [] = b := by
      rw [hp1, splitOnChar_append_sep, List.filter_append,
        getLastD_append_right _ _ _ hfrne]
      exact hfr
    simp only [h1, if_true]
    by_cases habs : startsWithS (home ++ dropFirstS path) "/" = true
    · simp only [habs, if_true]
      exact congrArg String.mk hlastp1
    · have habs' : startsWithS (home ++ dropFirstS path) "/" = false := by simpa using habs
      simp only [habs', Bool.false_eq_true, if_false]
      exact basename_resolveJoin cwd _ b hlastp1 hne hd1 hd2
  · have h1' : startsWithS path "~/" = false := by simpa using h1
    have h2 : (path == "~") = false := beq_eq_false_iff_ne.mpr hnt
    simp only [h1', h2, Bool.false_eq_true, if_false]
    by_cases habs : startsWithS path "/" = true
    · simp only [habs, if_true]
      exact congrArg String.mk hbl
    · have habs' : startsWithS path "/" = false := by simpa using habs
      simp only [habs', Bool.false_eq_true, if_false]
      exact basename_resolveJoin cwd _ b hbl hne hd1 hd2

/-! ## Basename-mode matching for slash-free patterns -/

/-- For a slash-free wildcard-free pattern that needs no expansion,
`pathMatchesPattern` is picomatch on the broadened pattern in basename mode. -/
theorem pathMatchesPattern_basename_mode (home cwd path pattern : String)
    (h1 : startsWithS pattern "~/" = false) (h2 : (pattern == "~") = false)
    (h3 : (pattern == ".") = false) (h4 : startsWithS pattern "./" = false)
    (h6 : includesC pattern '/' = false)
    (hstar : includesC pattern '*' = false) (hq : includesC pattern '?' = false) :
    pathMatchesPattern home path pattern cwd =
      picomatchIsMatch path (pattern ++ braceSuffix) true := by
  simp only [pathMatchesPattern, h1, h2, h3, h4, h6, hstar, hq, Bool.not_true, Bool.not_false,
    Bool.and_false, Bool.true_and, Bool.false_eq_true, if_false, if_true]

/-- For a slash-free pattern containing a `*`, `pathMatchesPattern` is
picomatch on the unmodified pattern in basename mode. -/
theorem pathMatchesPattern_basename_mode_star (home cwd path pattern : String)
    (h1 : startsWithS pattern "~/" = false) (h2 : (pattern == "~") = false)
    (h3 : (pattern == ".") = false) (h4 : startsWithS pattern "./" = false)
    (h6 : includesC pattern '/' = false)
    (hstar : includesC pattern '*' = true) :
    pathMatchesPattern home path pattern cwd = picomatchIsMatch path pattern true := by
  simp only [pathMatchesPattern, h1, h2, h3, h4, h6, hstar, Bool.not_true, Bool.not_false,
    Bool.and_false, Bool.false_and, Bool.true_and, Bool.false_eq_true, if_false, if_true]

/-- A path with basename ".env" is matched by the pattern ".env". -/
theorem pm_env_pos (home cwd A : String) {t : List Char}
    (hA : A.data = '/' :: t) (hbase : basenameStr A = ".env") :
    pathMatchesPattern home A ".env" cwd = true := by
  rw [pathMatchesPattern_basename_mode home cwd A ".env" (by decide) (by decide) (by decide)
    (by decide) (by decide) (by decide) (by decide)]
  apply picomatchIsMatch_of_any _ _ _ (string_ne_empty_of_data A hA)
  rw [show braceExpand (".env" ++ braceSuffix) = [".env", ".env/**"] from by decide]
  show (segsMatch (splitOnChar '/' (".env" : String).data)
      (splitOnChar '/' (basenameStr A).data) ||
    (segsMatch (splitOnChar '/' (".env/**" : String).data)
      (splitOnChar '/' (basenameStr A).data) || false)) = true
  rw [hbase]
  decide

/-- A path with basename ".env.local" is not matched by the pattern ".env". -/
theorem pm_env_neg (home cwd A : String) {t : List Char}
    (hA : A.data = '/' :: t) (hbase : basenameStr A = ".env.local") :
    pathMatchesPattern home A ".env" cwd = false := by
  rw [pathMatchesPattern_basename_mode home cwd A ".env" (by decide) (by decide) (by decide)
    (by decide) (by decide) (by decide) (by decide)]
  have hshort : (A == ".env" ++ braceSuffix) = false := by
    apply beq_eq_false_iff_ne.mpr
    intro he
    rw [he] at hA
    have h5 : (some '.' : Option Char) = some '/' := congrArg List.head? hA
    exact absurd h5 (by decide)
  rw [picomatchIsMatch_eq_any A _ true (string_ne_empty_of_data A hA) hshort]
  rw [show braceExpand (".env" ++ braceSuffix) = [".env", ".env/**"] from by decide]
  show (segsMatch (splitOnChar '/' (".env" : String).data)
      (splitOnChar '/' (basenameStr A).data) ||
    (segsMatch (splitOnChar '/' (".env/**" : String).data)
      (splitOnChar '/' (basenameStr A).data) || false)) = false
  rw [hbase]
  decide

/-- A path with basename "server.pem" is matched by the pattern "*.pem". -/
theorem pm_pem_pos (home cwd A : String) {t : List Char}
    (hA : A.data = '/' :: t) (hbase : basenameStr A = "server.pem") :
    pathMatchesPattern home A "*.pem" cwd = true := by
  rw [pathMatchesPattern_basename_mode_star home cwd A "*.pem" (by decide) (by decide)
    (by decide) (by decide) (by decide) (by decide)]
  apply picomatchIsMatch_of_any _ _ _ (string_ne_empty_of_data A hA)
  rw [show braceExpand "*.pem" = ["*.pem"] from by decide]
  show (segsMatch (splitOnChar '/' ("*.pem" : String).data)
      (splitOnChar '/' (basenameStr A).data) || false) = true
  rw [hbase]
  decide

/-- A denyWrite hit on the single configured pattern rejects the write. -/
theorem isWriteAllowed_denyHit (home path cwd pat : String)
    (h : pathMatchesPattern home (resolvePath home path cwd) pat cwd = true) :
    isWriteAllowed home path cwd ⟨some ⟨none, none, some [pat]⟩⟩ = false := by
  simp [isWriteAllowed, cfgDenyWrite, cfgAllowWrite, h]

/-- A denyWrite miss with no allowWrite list permits the write. -/
theorem isWriteAllowed_denyMiss (home path cwd pat : String)
    (h : pathMatchesPattern home (resolvePath home path cwd) pat cwd = false) :
    isWriteAllowed home path cwd ⟨some ⟨none, none, some [pat]⟩⟩ = true := by
  simp [isWriteAllowed, cfgDenyWrite, cfgAllowWrite, h]

/-- C4: a pattern without a path separator is compared against the candidate
path's final segment, ignoring directory structure: with `denyWrite`
[".env"], every path whose basename is exactly ".env" is rejected at any
depth, a path whose basename is ".env.local" is allowed, and with
`denyWrite` ["*.pem"] every path whose basename is "server.pem" is rejected
at any depth.  The hypothesis on `cwd` records that the model of path
resolution assumes an absolute working directory. -/
theorem basename_deny_write (home cwd path : String)
    (_hcwd : startsWithS cwd "/" = true) :
    (basenameStr path = ".env" →
      isWriteAllowed home path cwd ⟨some ⟨none, none, some [".env"]⟩⟩ = false) ∧
    (basenameStr path = ".env.local" →
      isWriteAllowed home path cwd ⟨some ⟨none, none, some [".env"]⟩⟩ = true) ∧
    (basenameStr path = "server.pem" →
      isWriteAllowed home path cwd ⟨some ⟨none, none, some ["*.pem"]⟩⟩ = false) := by
  obtain ⟨t2, hA⟩ := resolvePath_data_head home path cwd
  refine ⟨?_, ?_, ?_⟩
  · intro hb
    have hnt : path ≠ "~" := by
      intro he
      rw [he] at hb
      exact absurd hb (by decide)
    have hAb : basenameStr (resolvePath home path cwd) = ".env" :=
      basename_resolvePath home path cwd ['.', 'e', 'n', 'v'] hb (by decide) (by decide)
        (by decide) hnt (by decide)
    exact isWriteAllowed_denyHit home path cwd ".env" (pm_env_pos home cwd _ hA hAb)
  · intro hb
    have hnt : path ≠ "~" := by
      intro he
      rw [he] at hb
      exact absurd hb (by decide)
    have hAb : basenameStr (resolvePath home path cwd) = ".env.local" :=
      basename_resolvePath home path cwd ".env.local".data hb (by decide) (by decide)
        (by decide) hnt (by decide)
    exact isWriteAllowed_denyMiss home path cwd ".env" (pm_env_neg home cwd _ hA hAb)
  · intro hb
    have hnt : path ≠ "~" := by
      intro he
      rw [he] at hb
      exact absurd hb (by decide)
    have hAb : basenameStr (resolvePath home path cwd) = "server.pem" :=
      basename_resolvePath home path cwd "server.pem".data hb (by decide) (by decide)
        (by decide) hnt (by decide)
    exact isWriteAllowed_denyHit home path cwd "*.pem" (pm_pem_pos home cwd _ hA hAb)

/-- Witness for C4 at nested concrete paths. -/
theorem basename_deny_write_witness :
    isWriteAllowed "/home/u" "/any/dir/.env" "/projects"
      ⟨some ⟨none, none, some [".env"]⟩⟩ = false ∧
    isWriteAllowed "/home/u" "/any/dir/.env.local" "/projects"
      ⟨some ⟨none, none, some [".env"]⟩⟩ = true ∧
    isWriteAllowed "/home/u" "/deep/nest/server.pem" "/projects"
      ⟨some ⟨none, none, some ["*.pem"]⟩⟩ = false :=
  ⟨(basename_deny_write "/home/u" "/projects" "/any/dir/.env" (by decide)).1 (by decide),
   (basename_deny_write "/home/u" "/projects" "/any/dir/.env.local" (by decide)).2.1 (by decide),
   (basename_deny_write "/home/u" "/projects" "/deep/nest/server.pem" (by decide)).2.2 (by decide)⟩

/-- Witness for C2 (amended) at the pattern "/aa/bb": the nested path with
ordinary segments matches, the dash extension does not. -/
theorem directory_prefix_matching_witness :
    pathMatchesPattern "/h" ("/aa/bb" ++ "/" ++ "keys/id") "/aa/bb" "/c" = true ∧
    pathMatchesPattern "/h" ("/aa/bb" ++ "-backup") "/aa/bb" "/c" = false :=
  ⟨(directory_prefix_matching "/h" "/c" "/aa/bb" (by decide) (by decide)).2.1
      "keys/id" (by decide),
   (directory_prefix_matching "/h" "/c" "/aa/bb" (by decide) (by decide)).2.2
      "-backup" (by decide) (by decide) (by decide)⟩
